import Mathlib

/-!
Verification development for the `bsky-stats-archive` repository
(`scripts/archive_and_post.py`), a single Python script that fetches a
statistics snapshot, archives it under `data/<YYYY>/<MM>/<YYYY-MM-DD>.json`,
locates the most relevant previous snapshot, computes deltas and composes a
report, and best-effort posts it.

Shallow embedding notes:
* The filesystem is modelled as a finite association list of files
  (path segments relative to the repository root, paired with file
  contents).  A directory "exists" exactly when some file lies beneath it;
  for `find_previous_snapshot` this is observationally equivalent to the
  Python code (an existing-but-empty `data` directory and a missing one
  both yield `None`).
* Python `datetime` values are modelled as a calendar date (proleptic
  Gregorian, year 1..9999 as in CPython) plus hour/minute; `now - timedelta
  (days=1)` acts on the calendar date as `prevDate`.
* Python floats are modelled as exact rationals (`ℚ`); the spec itself
  only demands floating-point-tolerance-level agreement.
* JSON numbers are `jint`/`jfloat` mirroring Python's `int`/`float`
  distinction in `json` round-trips.
-/

/-! ### Characters and digits -/

def digitCh (k : Nat) : Char :=
  ['0', '1', '2', '3', '4', '5', '6', '7', '8', '9'].getD k '0'

def charVal (c : Char) : Nat := c.toNat - 48

def isDigitCh (c : Char) : Bool := decide ('0' ≤ c) && decide (c ≤ '9')

/-- Digits of a natural number, most significant first (as `Nat`s < 10);
structural recursion on a fuel argument (one unit per digit, so any fuel
at least the number itself is enough). -/
def natDigitsGo : Nat → Nat → List Nat
  | 0, n => [n % 10]
  | fuel + 1, n => if n < 10 then [n] else natDigitsGo fuel (n / 10) ++ [n % 10]

def natDigits (n : Nat) : List Nat := natDigitsGo n n

def natDigitsChars (n : Nat) : List Char := (natDigits n).map digitCh

/-- `%02d`: two-digit zero-padded decimal rendering (faithful for `n ≤ 99`,
which covers months, days, hours and minutes). -/
def fmt2c (n : Nat) : List Char := [digitCh (n / 10 % 10), digitCh (n % 10)]

/-- `%04d`: four-digit zero-padded decimal rendering (faithful for
`n ≤ 9999`, which covers CPython's year range). -/
def fmt4c (n : Nat) : List Char :=
  [digitCh (n / 1000 % 10), digitCh (n / 100 % 10), digitCh (n / 10 % 10),
    digitCh (n % 10)]

/-! ### Calendar dates (proleptic Gregorian, as CPython `datetime.date`) -/

structure Date where
  year : Nat
  month : Nat
  day : Nat
deriving DecidableEq, Repr

def isLeap (y : Nat) : Bool :=
  y % 4 == 0 && (y % 100 != 0 || y % 400 == 0)

def daysInMonth (y : Nat) (m : Nat) : Nat :=
  match m with
  | 2 => if isLeap y then 29 else 28
  | 4 => 30
  | 6 => 30
  | 9 => 30
  | 11 => 30
  | _ => 31

/-- The range of dates representable by CPython's `datetime.date`. -/
def Date.Valid (d : Date) : Prop :=
  1 ≤ d.year ∧ d.year ≤ 9999 ∧ 1 ≤ d.month ∧ d.month ≤ 12 ∧
  1 ≤ d.day ∧ d.day ≤ daysInMonth d.year d.month

instance (d : Date) : Decidable d.Valid := by
  unfold Date.Valid; infer_instance

/-- Python `date` comparison: lexicographic on (year, month, day). -/
def dateLt (a b : Date) : Bool :=
  decide (a.year < b.year) ||
    (decide (a.year = b.year) &&
      (decide (a.month < b.month) ||
        (decide (a.month = b.month) && decide (a.day < b.day))))

/-- `(now_dt - timedelta(days=1)).date()`: the previous calendar day.
(Undefined in Python only at `0001-01-01`, where it raises
`OverflowError`; theorems exclude that date.) -/
def prevDate (d : Date) : Date :=
  if 1 < d.day then ⟨d.year, d.month, d.day - 1⟩
  else if 1 < d.month then ⟨d.year, d.month - 1, daysInMonth d.year (d.month - 1)⟩
  else ⟨d.year - 1, 12, 31⟩

/-- A UTC `datetime` as used by the script: calendar date plus
hour/minute (seconds are never displayed). -/
structure DateTime where
  date : Date
  hour : Nat
  minute : Nat
deriving DecidableEq, Repr

/-- `strftime('%Y-%m-%d')` as a character list. -/
def dateStrChars (d : Date) : List Char :=
  fmt4c d.year ++ '-' :: fmt2c d.month ++ '-' :: fmt2c d.day

/-! ### Filename-stem date parsing (`datetime.strptime(stem, "%Y-%m-%d")`)

CPython compiles the format to the regex
`\d\d\d\d-(1[0-2]|0[1-9]|[1-9])-(3[01]|[12]\d|0[1-9]|[1-9])` anchored at
both ends, then validates the day against the month via the `datetime`
constructor.  The alternation is tried in order; since every alternative is
followed by a fixed non-digit (`-` or end of input), first-local-match is
equivalent to full backtracking, which the functions below implement. -/

/-- The `%m` component: regex `1[0-2]|0[1-9]|[1-9]`, returning the value
and the unconsumed input. -/
def parseMonthChars : List Char → Option (Nat × List Char)
  | '1' :: c :: rest =>
    if decide ('0' ≤ c) && decide (c ≤ '2') then some (10 + charVal c, rest)
    else some (1, c :: rest)
  | '0' :: c :: rest =>
    if decide ('1' ≤ c) && decide (c ≤ '9') then some (charVal c, rest) else none
  | c :: rest =>
    if decide ('1' ≤ c) && decide (c ≤ '9') then some (charVal c, rest) else none
  | [] => none

/-- The `%d` component: regex `3[01]|[12]\d|0[1-9]|[1-9]`. -/
def parseDayChars : List Char → Option (Nat × List Char)
  | '3' :: c :: rest =>
    if c = '0' ∨ c = '1' then some (30 + charVal c, rest) else some (3, c :: rest)
  | c :: c2 :: rest =>
    if (c = '1' ∨ c = '2') ∧ isDigitCh c2 = true then
      some (10 * charVal c + charVal c2, rest)
    else if c = '0' then
      if decide ('1' ≤ c2) && decide (c2 ≤ '9') then some (charVal c2, rest) else none
    else if decide ('1' ≤ c) && decide (c ≤ '9') then some (charVal c, c2 :: rest)
    else none
  | [c] => if decide ('1' ≤ c) && decide (c ≤ '9') then some (charVal c, []) else none
  | [] => none

/-- The `%d` component followed by end of input, then `datetime`'s
range validation (day against month length, year at least 1). -/
def strptimeD (y m : Nat) (rest2 : List Char) : Option Date :=
  match parseDayChars rest2 with
  | some (d, []) => if 1 ≤ y ∧ d ≤ daysInMonth y m then some ⟨y, m, d⟩ else none
  | _ => none

/-- The `%m` component followed by a literal `'-'` and the `%d` part. -/
def strptimeMD (y : Nat) (rest : List Char) : Option Date :=
  match parseMonthChars rest with
  | some (m, '-' :: rest2) => strptimeD y m rest2
  | _ => none

/-- `datetime.strptime(s, "%Y-%m-%d")`, returning `none` where Python
raises `ValueError` (regex mismatch, or an invalid calendar date such as
month 2 day 30 or year 0000). -/
def strptimeChars : List Char → Option Date
  | c1 :: c2 :: c3 :: c4 :: '-' :: rest =>
    if isDigitCh c1 && isDigitCh c2 && isDigitCh c3 && isDigitCh c4 then
      strptimeMD
        (charVal c1 * 1000 + charVal c2 * 100 + charVal c3 * 10 + charVal c4) rest
    else none
  | _ => none

/-! ### Paths and the filesystem model -/

/-- A path as a list of segments, relative to the repository root. -/
abbrev FPath := List String

/-- The filesystem: a finite list of files (path, contents).  Paths are
unique in any state the script produces. -/
abbrev FSys := List (FPath × String)

/-- Split a character list at its first `'.'` (prefix without dots,
remainder starting at the dot if any). -/
def breakDot : List Char → List Char × List Char
  | [] => ([], [])
  | c :: l =>
    if c = '.' then ([], c :: l)
    else
      let r := breakDot l
      (c :: r.1, r.2)

/-- `pathlib.Path.stem`: the final component without its last suffix.
CPython keeps the whole name when the last dot is at index 0 or there are
no characters after it. -/
def stemChars (l : List Char) : List Char :=
  match breakDot l.reverse with
  | (sufRev, '.' :: stemRev) =>
    if sufRev.isEmpty ∨ stemRev.isEmpty then l else stemRev.reverse
  | _ => l

def lastSeg (p : FPath) : String := p.getLast?.getD ""

/-- `fnmatch` against `*.json` (case-sensitive, as on Linux). -/
def endsWithJson (s : String) : Bool :=
  match s.toList.reverse with
  | 'n' :: 'o' :: 's' :: 'j' :: '.' :: _ => true
  | _ => false

/-- `parse_snapshot_date`: parse a file's stem as `YYYY-MM-DD`, `None`
on failure. -/
def parse_snapshot_date (p : FPath) : Option Date :=
  strptimeChars (stemChars (lastSeg p).toList)

/-- Is this file strictly inside the `data` directory? -/
def underData : FPath → Bool
  | "data" :: _ :: _ => true
  | _ => false

/-- `ensure_archive_path`: `data/<%Y>/<%m>/<%Y-%m-%d>.json` for the
current UTC datetime.  (The `mkdir` side effect has no observable content
in the files-only filesystem model.) -/
def ensure_archive_path (dt : DateTime) : FPath :=
  ["data", String.mk (fmt4c dt.date.year), String.mk (fmt2c dt.date.month),
    String.mk (dateStrChars dt.date ++ ['.', 'j', 's', 'o', 'n'])]

/-- The exact-yesterday path probed first by `find_previous_snapshot`:
`data/f"{y:04d}"/f"{m:02d}"/<%Y-%m-%d>.json` for yesterday's date. -/
def yesterdayPath (now : DateTime) : FPath :=
  let prev := prevDate now.date
  ["data", String.mk (fmt4c prev.year), String.mk (fmt2c prev.month),
    String.mk (dateStrChars prev ++ ['.', 'j', 's', 'o', 'n'])]

/-- The loop body of the fallback scan: skip files whose stem does not
parse (`if d is None: continue`), keep dates strictly earlier than
today. -/
def candFn (today : Date) (p : FPath) : Option (Date × FPath) :=
  (parse_snapshot_date p).bind
    (fun d => if dateLt d today then some (d, p) else none)

/-- The fallback scan's candidate list: every `*.json` file under `data`
whose stem parses as a date strictly earlier than today, in filesystem
order, paired with that date. -/
def snapshotCandidates (fs : FSys) (now : DateTime) : List (Date × FPath) :=
  ((fs.map Prod.fst).filter
      (fun p => underData p && endsWithJson (lastSeg p))).filterMap
    (candFn now.date)

/-- One step of the maximum selection: keep the later entry, preferring
the right-hand one on equal dates (matching stable ascending sort followed
by `[-1]`). -/
def pickStep (best y : Date × FPath) : Date × FPath :=
  if dateLt best.1 y.1 = true ∨ best.1 = y.1 then y else best

/-- `candidates.sort(key=...); candidates[-1]`: Python's sort is stable,
so the last element after an ascending stable sort is the last-occurring
entry with the maximal date, which this fold computes directly. -/
def pickLatest : List (Date × FPath) → Option (Date × FPath)
  | [] => none
  | x :: xs => some (xs.foldl pickStep x)

/-- `find_previous_snapshot`: prefer the exact-yesterday file; else the
latest strictly-earlier dated `*.json` under `data`; `None` when the
`data` directory is absent (no file under it) or yields no candidate. -/
def find_previous_snapshot (fs : FSys) (now : DateTime) : Option FPath :=
  if ¬ ∃ e ∈ fs, underData e.1 = true then none
  else if ∃ e ∈ fs, e.1 = yesterdayPath now then some (yesterdayPath now)
  else (pickLatest (snapshotCandidates fs now)).map Prod.snd

/-! ### JSON values and snapshot dictionaries -/

/-- A JSON scalar as Python's `json` module distinguishes them: `int`,
`float` (modelled as an exact rational) or `str`. -/
inductive JVal where
  | jint (z : ℤ)
  | jfloat (q : ℚ)
  | jstr (s : String)
deriving DecidableEq, Repr

/-- A parsed JSON object (Python `dict`); keys are unique in every dict
this program handles. -/
abbrev JDict := List (String × JVal)

def dictGet? : JDict → String → Option JVal
  | [], _ => none
  | kv :: rest, k => if kv.1 = k then some kv.2 else dictGet? rest k

/-- Python `dict.get(k, default)`. -/
def dictGetD (d : JDict) (k : String) (v0 : JVal) : JVal := (dictGet? d k).getD v0

/-- Python `k in d`. -/
def dictHasB (d : JDict) (k : String) : Bool := (dictGet? d k).isSome

/-- Python `int()` on a float: truncation toward zero. -/
def truncQ (q : ℚ) : ℤ := if 0 ≤ q then Rat.floor q else -Rat.floor (-q)

/-- Python `int(v)` for the values that occur in snapshots (`int(str)`
string parsing is unmodelled: the metric fields are numeric). -/
def valToInt : JVal → ℤ
  | .jint z => z
  | .jfloat q => truncQ q
  | .jstr _ => 0

/-- Python `float(v)` for the values that occur in snapshots. -/
def valToQ : JVal → ℚ
  | .jint z => (z : ℚ)
  | .jfloat q => q
  | .jstr _ => 0

/-- `required_keys` of `fetch_stats`. -/
def required_keys : List String :=
  ["total_users", "total_posts", "total_follows", "total_likes",
    "users_growth_rate_per_second", "last_update_time", "next_update_time"]

/-- The first key of `keys` missing from `data`, in order — the key whose
`ValueError` the validation loop raises. -/
def firstMissing (data : JDict) : List String → Option String
  | [] => none
  | k :: ks => if dictHasB data k then firstMissing data ks else some k

/-- The validation loop of `fetch_stats`: `ValueError` (as `Except.error`)
naming the first missing required key, else the data unchanged. -/
def validateStats (data : JDict) : Except String JDict :=
  (firstMissing data required_keys).elim (Except.ok data)
    (fun k => Except.error ("Missing key in response: " ++ k))

/-- `compute_deltas`: `None` components without a previous snapshot
(Python treats `None` and the empty dict alike via `if not previous`),
else signed differences with `.get(key, 0)` defaults. -/
def compute_deltas (current : JDict) :
    Option JDict → Option ℤ × Option ℤ × Option ℤ × Option ℚ
  | none => (none, none, none, none)
  | some prev =>
    if prev.isEmpty then (none, none, none, none)
    else
      (some (valToInt (dictGetD current "total_users" (JVal.jint 0)) -
          valToInt (dictGetD prev "total_users" (JVal.jint 0))),
        some (valToInt (dictGetD current "total_posts" (JVal.jint 0)) -
          valToInt (dictGetD prev "total_posts" (JVal.jint 0))),
        some (valToInt (dictGetD current "total_likes" (JVal.jint 0)) -
          valToInt (dictGetD prev "total_likes" (JVal.jint 0))),
        some (valToQ (dictGetD current "users_growth_rate_per_second" (JVal.jfloat 0)) -
          valToQ (dictGetD prev "users_growth_rate_per_second" (JVal.jfloat 0))))

/-! ### Report rendering -/

/-- Insert `','` after every third character of a reversed digit string
while more digits remain. -/
def group3Rev : List Char → List Char
  | a :: b :: c :: d :: rest => a :: b :: c :: ',' :: group3Rev (d :: rest)
  | l => l

/-- `human_int`: Python `f"{n:,}"` — thousands-grouped signed decimal. -/
def human_int (n : ℤ) : String :=
  (if n < 0 then "-" else "") ++
    String.mk (group3Rev (natDigitsChars n.natAbs).reverse).reverse

/-- Round to the nearest integer, ties to even — the rounding `%.4f`
applies (on the exact-rational model of the float). -/
def roundHalfEven (x : ℚ) : ℤ :=
  let f := Rat.floor x
  let r := x - (f : ℚ)
  if r < 1 / 2 then f
  else if 1 / 2 < r then f + 1
  else if f % 2 = 0 then f else f + 1

/-- `human_rate`: Python `f"{r:.4f}"`. -/
def human_rate (q : ℚ) : String :=
  let a := if q < 0 then -q else q
  let n := (roundHalfEven (a * 10000)).toNat
  (if q < 0 then "-" else "") ++ String.mk (natDigitsChars (n / 10000)) ++ "." ++
    String.mk (fmt4c (n % 10000))

/-- The report's header line: `strftime('%Y-%m-%d %H:%M')` plus fixed
text. -/
def headerLine (now : DateTime) : String :=
  "Bluesky Daily Stats — " ++ String.mk (dateStrChars now.date) ++ " " ++
    String.mk (fmt2c now.hour) ++ ":" ++ String.mk (fmt2c now.minute) ++ " UTC"

/-- `"\n".join(parts)`. -/
def joinNl : List String → String
  | [] => ""
  | [x] => x
  | x :: xs => x ++ "\n" ++ joinNl xs

/-- `compose_post_text`.  (The source indexes `current[...]` directly for
the three count lines and the rate, which raises unless the key is
present; callers only pass validated snapshots, and the theorems assume
the keys are present, so the `.getD` default is never observable.) -/
def compose_post_text (now : DateTime) (current : JDict) :
    Option ℤ × Option ℤ × Option ℤ × Option ℚ → String
  | (du, dp, dl, dr) =>
  joinNl
    [headerLine now,
      "Users: " ++ human_int (valToInt (dictGetD current "total_users" (JVal.jint 0))) ++
        (match du with
          | some v => " (↑" ++ human_int v ++ ")"
          | none => ""),
      "Posts: " ++ human_int (valToInt (dictGetD current "total_posts" (JVal.jint 0))) ++
        (match dp with
          | some v => " (↑" ++ human_int v ++ ")"
          | none => ""),
      "Likes: " ++ human_int (valToInt (dictGetD current "total_likes" (JVal.jint 0))) ++
        (match dl with
          | some v => " (↑" ++ human_int v ++ ")"
          | none => ""),
      "Growth rate: " ++
        human_rate (valToQ (dictGetD current "users_growth_rate_per_second" (JVal.jfloat 0))) ++
        "/s" ++
        (match dr with
          | some v => " (Δ" ++ human_rate v ++ "/s)"
          | none => "")]

/-! ### JSON serialization (`json.dump(..., ensure_ascii=False, indent=2)`)
and a parser for the flat-object subset this program reads and writes -/

def hexDigitCh (k : Nat) : Char :=
  if k < 10 then Char.ofNat (48 + k)
  else if k < 16 then Char.ofNat (87 + k)
  else '0'

/-- Python `json`'s per-character string encoding with
`ensure_ascii=False`: short escapes for the classic control characters and
for `'"'` and backslash, `\u00xx` for the remaining controls, everything
else (all non-ASCII included) literal. -/
def escapeChar (c : Char) : List Char :=
  if c = '"' then ['\\', '"']
  else if c = '\\' then ['\\', '\\']
  else if c = '\n' then ['\\', 'n']
  else if c = '\t' then ['\\', 't']
  else if c = '\r' then ['\\', 'r']
  else if c.toNat = 8 then ['\\', 'b']
  else if c.toNat = 12 then ['\\', 'f']
  else if c.toNat < 32 then
    ['\\', 'u', '0', '0', hexDigitCh (c.toNat / 16), hexDigitCh (c.toNat % 16)]
  else [c]

def dumpStr (s : String) : List Char :=
  '"' :: ((s.toList.map escapeChar).flatten ++ ['"'])

def intChars (z : ℤ) : List Char :=
  (if z < 0 then ['-'] else []) ++ natDigitsChars z.natAbs

/-- Smallest `j` in `k, k+1, ..., k+fuel-1` with `a * 10^j` integral. -/
def fracLenAux (a : ℚ) : Nat → Nat → Option Nat
  | _, 0 => none
  | k, fuel + 1 =>
    if (a * (10 : ℚ) ^ k).den = 1 then some k else fracLenAux a (k + 1) fuel

/-- The digit portion of a float's exact decimal expansion with `k`
fractional digits: integer digits, `'.'`, then the zero-padded fraction. -/
def floatDigitsChars (a : ℚ) (k : Nat) : List Char :=
  natDigitsChars ((a * (10 : ℚ) ^ k).num.toNat / 10 ^ k) ++
    '.' :: (List.replicate
        (k - (natDigitsChars ((a * (10 : ℚ) ^ k).num.toNat % 10 ^ k)).length) '0' ++
      natDigitsChars ((a * (10 : ℚ) ^ k).num.toNat % 10 ^ k))

def floatCharsAux (a : ℚ) : Option Nat → List Char
  | none => ['0', '.', '0']
  | some k => floatDigitsChars a k

/-- `repr(float)`: the shortest round-tripping decimal.  On the
exact-rational model a float is the dyadic rational it denotes and its
repr is the exact decimal expansion, which this computes (with at least
one fractional digit, as Python prints `4.0`).  Exponent notation for
huge/tiny magnitudes is unmodelled, and the fuel bound covers every
Python float's expansion length (the fallback is unreachable for
float-denoted rationals). -/
def floatChars (q : ℚ) : List Char :=
  (if q < 0 then ['-'] else []) ++
    floatCharsAux (if q < 0 then -q else q)
      (fracLenAux (if q < 0 then -q else q) 1 1100)

def dumpVal : JVal → List Char
  | .jint z => intChars z
  | .jfloat q => floatChars q
  | .jstr s => dumpStr s

/-- One `"key": value` item with its two-space indent. -/
def itemChars (kv : String × JVal) : List Char :=
  ' ' :: ' ' :: (dumpStr kv.1 ++ ':' :: ' ' :: dumpVal kv.2)

def joinSepC (sep : List Char) : List (List Char) → List Char
  | [] => []
  | [x] => x
  | x :: xs => x ++ sep ++ joinSepC sep xs

/-- `json.dump(d, indent=2)` for a flat object: `\x7b\n  item,\n  item\n\x7d`,
or `\x7b\x7d` when empty. -/
def dumpDict (d : JDict) : List Char :=
  match d with
  | [] => ['\x7b', '\x7d']
  | _ => '\x7b' :: '\n' :: (joinSepC [',', '\n'] (d.map itemChars) ++ ['\n', '\x7d'])

def dumpJsonStr (d : JDict) : String := String.mk (dumpDict d)

def isWsCh (c : Char) : Bool := c = ' ' || c = '\n' || c = '\t' || c = '\r'

def skipWs : List Char → List Char
  | c :: l => if isWsCh c then skipWs l else c :: l
  | [] => []

def isHexCh (c : Char) : Bool :=
  isDigitCh c || (decide ('a' ≤ c) && decide (c ≤ 'f')) ||
    (decide ('A' ≤ c) && decide (c ≤ 'F'))

def hexVal (c : Char) : Nat :=
  if isDigitCh c then charVal c
  else if decide ('a' ≤ c) && decide (c ≤ 'f') then c.toNat - 87
  else c.toNat - 55

/-- JSON string body after the opening quote: returns the decoded
characters and the input after the closing quote, `none` where Python's
decoder raises (bad escape, raw control character, unterminated string).
Clause order mirrors the decoder: `\\u` plus four hex digits, the short
escapes, then ordinary characters.  (Surrogate-pair recombination for
`\\u` escapes is unmodelled.) -/
def pStrBody : List Char → Option (List Char × List Char)
  | '\\' :: 'u' :: a :: b :: c :: d :: l =>
    if isHexCh a && isHexCh b && isHexCh c && isHexCh d then
      (pStrBody l).map (fun r =>
        (Char.ofNat (((hexVal a * 16 + hexVal b) * 16 + hexVal c) * 16 +
          hexVal d) :: r.1, r.2))
    else none
  | '\\' :: e :: l =>
    if e = '"' ∨ e = '\\' ∨ e = '/' then
      (pStrBody l).map (fun r => (e :: r.1, r.2))
    else if e = 'n' then (pStrBody l).map (fun r => ('\n' :: r.1, r.2))
    else if e = 't' then (pStrBody l).map (fun r => ('\t' :: r.1, r.2))
    else if e = 'r' then (pStrBody l).map (fun r => ('\r' :: r.1, r.2))
    else if e = 'b' then (pStrBody l).map (fun r => (Char.ofNat 8 :: r.1, r.2))
    else if e = 'f' then (pStrBody l).map (fun r => (Char.ofNat 12 :: r.1, r.2))
    else none
  | c :: l =>
    if c = '"' then some ([], l)
    else if c.toNat < 32 then none
    else (pStrBody l).map (fun r => (c :: r.1, r.2))
  | [] => none

def takeDigits : List Char → List Char × List Char
  | c :: l =>
    if isDigitCh c then
      let r := takeDigits l
      (c :: r.1, r.2)
    else ([], c :: l)
  | [] => ([], [])

def digitsVal (ds : List Char) : Nat := ds.foldl (fun a c => 10 * a + charVal c) 0

/-- After the integer digits `ip`: an optional `.` fraction part.
Python's json yields `int` without a fraction part and `float` with one. -/
def pNumFrac (ip : List Char) : List Char → Option (JVal × List Char)
  | [] => some (JVal.jint (digitsVal ip : ℤ), [])
  | c :: t =>
    if c = '.' then
      if (takeDigits t).1.isEmpty then none
      else
        some (JVal.jfloat ((digitsVal ip : ℚ) +
          (digitsVal (takeDigits t).1 : ℚ) / (10 : ℚ) ^ (takeDigits t).1.length),
          (takeDigits t).2)
    else some (JVal.jint (digitsVal ip : ℤ), c :: t)

/-- Unsigned JSON number: digits, optionally `.` digits. -/
def pNumberNat (l : List Char) : Option (JVal × List Char) :=
  if (takeDigits l).1.isEmpty then none
  else pNumFrac (takeDigits l).1 (takeDigits l).2

def negJVal : JVal → JVal
  | JVal.jint z => JVal.jint (-z)
  | JVal.jfloat q => JVal.jfloat (-q)
  | v => v

def pNumber : List Char → Option (JVal × List Char)
  | [] => none
  | c :: t =>
    if c = '-' then (pNumberNat t).map (fun r => (negJVal r.1, r.2))
    else pNumberNat (c :: t)

/-- A primitive JSON value: string or number. -/
def pValPrim : List Char → Option (JVal × List Char)
  | [] => none
  | c :: t =>
    if c = '"' then (pStrBody t).map (fun r => (JVal.jstr (String.mk r.1), r.2))
    else pNumber (c :: t)

/-- After a member's value: a comma continues the member list, anything
else ends it (the caller then expects the closing brace). -/
def pMemTailGo (pmem : List Char → Option (JDict × List Char))
    (kv : String × JVal) : List Char → Option (JDict × List Char)
  | c :: l4 =>
    if c = ',' then (pmem l4).map (fun r => (kv :: r.1, r.2))
    else some ([kv], c :: l4)
  | [] => some ([kv], [])

def pMemTail (pmem : List Char → Option (JDict × List Char))
    (kv : String × JVal) (l3 : List Char) : Option (JDict × List Char) :=
  pMemTailGo pmem kv (skipWs l3)

def pMemVal (pmem : List Char → Option (JDict × List Char))
    (kcs : List Char) : Option (JVal × List Char) → Option (JDict × List Char)
  | none => none
  | some (v, l3) => pMemTail pmem (String.mk kcs, v) l3

def pMemColonGo (pmem : List Char → Option (JDict × List Char))
    (kcs : List Char) : List Char → Option (JDict × List Char)
  | c :: l2 =>
    if c = ':' then pMemVal pmem kcs (pValPrim (skipWs l2)) else none
  | [] => none

def pMemColon (pmem : List Char → Option (JDict × List Char))
    (kcs : List Char) (l1 : List Char) : Option (JDict × List Char) :=
  pMemColonGo pmem kcs (skipWs l1)

def pMemKey (pmem : List Char → Option (JDict × List Char)) :
    Option (List Char × List Char) → Option (JDict × List Char)
  | none => none
  | some (kcs, l1) => pMemColon pmem kcs l1

/-- One member `"k": v` starting at a non-whitespace character, then the
member-list tail. -/
def pMemStart (pmem : List Char → Option (JDict × List Char)) :
    List Char → Option (JDict × List Char)
  | c :: t => if c = '"' then pMemKey pmem (pStrBody t) else none
  | [] => none

/-- Object members `"k": v (, "k": v)*`, whitespace-tolerant; the fuel
bounds the number of members (callers pass the input length). -/
def pMembers : Nat → List Char → Option (JDict × List Char)
  | 0, _ => none
  | fuel + 1, l => pMemStart (pMembers fuel) (skipWs l)

/-- After the member list: the closing brace, then only whitespace may
remain. -/
def parseClose (d : JDict) : List Char → Option JDict
  | c :: l3 =>
    if c = '\x7d' then (if (skipWs l3).isEmpty then some d else none)
    else none
  | [] => none

def parseAfterMembers : Option (JDict × List Char) → Option JDict
  | none => none
  | some (d, l2) => parseClose d (skipWs l2)

/-- Inside the braces: either an immediately closing brace (empty
object) or a member list. -/
def parseInner (l1 : List Char) : List Char → Option JDict
  | c :: l2 =>
    if c = '\x7d' then (if (skipWs l2).isEmpty then some [] else none)
    else parseAfterMembers (pMembers (l1.length + 1) l1)
  | [] => parseAfterMembers (pMembers (l1.length + 1) l1)

def parseBrace : List Char → Option JDict
  | c :: l1 => if c = '\x7b' then parseInner l1 (skipWs l1) else none
  | [] => none

/-- `json.load` on the flat-object subset (see `pValPrim`): a single
top-level object, then end of input. -/
def parseTop (l : List Char) : Option JDict :=
  parseBrace (skipWs l)

def parseJson (s : String) : Option JDict := parseTop s.toList

/-! ### Filesystem writes and the whole-run model -/

/-- Writing a file: replace the contents at an existing path, else create
the file. -/
def fsWrite (fs : FSys) (p : FPath) (c : String) : FSys :=
  if fs.any (fun e => decide (e.1 = p)) then
    fs.map (fun e => if e.1 = p then (p, c) else e)
  else fs ++ [(p, c)]

def fsLookup : FSys → FPath → Option String
  | [], _ => none
  | e :: rest, p => if e.1 = p then some e.2 else fsLookup rest p

/-- The two credential environment variables. -/
structure Env where
  handle : Option String
  password : Option String
deriving DecidableEq, Repr

/-- Python falsiness of `os.environ.get(...)`: unset or empty. -/
def strFalsy : Option String → Bool
  | none => true
  | some s => s.isEmpty

/-- `post_to_bluesky`: raise (`Except.error`) before any client call when
either credential is falsy; otherwise the outcome of the login/post
attempt is the environment's.  The boolean records whether the client
call was reached. -/
def post_to_bluesky (env : Env) (outcome : Except String Unit) :
    Bool × Except String Unit :=
  if strFalsy env.handle || strFalsy env.password then
    (false,
      Except.error "Missing BSKY_HANDLE or BSKY_APP_PASSWORD environment variables")
  else (true, outcome)

/-- Outcome of `requests.get(STATS_URL, timeout=20)` and `.json()`:
either a raised transport exception, or a status code with the parsed
JSON body (a non-JSON body is unmodelled; the endpoint serves JSON). -/
inductive FetchOutcome where
  | transportError (msg : String)
  | response (status : Nat) (body : JDict)
deriving Repr

/-- The exceptions `main` can raise, as handled by the `__main__` block. -/
inductive MainErr where
  | httpError (status : Nat)
  | transport (msg : String)
  | validation (msg : String)
  | badPrevJson
deriving DecidableEq, Repr

/-- Everything outside the program that one run observes. -/
structure World where
  now : DateTime
  fetch : FetchOutcome
  fs0 : FSys
  env : Env
  publish : Except String Unit

/-- `fetch_stats` on a fetch outcome: `raise_for_status` raises
`requests.HTTPError` for status >= 400, then the required-key validation
runs on the body (a `ValueError`). -/
def fetchStatsOf : FetchOutcome → Except MainErr JDict
  | .transportError m => Except.error (MainErr.transport m)
  | .response status body =>
    if 400 ≤ status then Except.error (MainErr.httpError status)
    else (validateStats body).mapError MainErr.validation

def fetch_stats (w : World) : Except MainErr JDict := fetchStatsOf w.fetch

/-- `load_json(prev_path) if prev_path else None`: `None` for a missing
path, the parsed dict otherwise; malformed JSON raises (propagates to the
top-level handler). -/
def loadPrevStats (fs : FSys) (prevPath : Option FPath) :
    Except MainErr (Option JDict) :=
  match prevPath with
  | none => Except.ok none
  | some p =>
    match fsLookup fs p with
    | none => Except.ok none
    | some content =>
      match parseJson content with
      | none => Except.error MainErr.badPrevJson
      | some d => Except.ok (some d)

/-- The diagnostic line the `__main__` handlers print to stderr
(`requests.HTTPError` gets the dedicated handler; transport errors and
`ValueError` fall to the generic one).  The `time.sleep(2)` politeness
pause on the HTTP path has no observable state and is not modelled. -/
def errLine : MainErr → String
  | .httpError status => "HTTP error: " ++ Nat.repr status
  | .transport m => "Unhandled error: " ++ m
  | .validation m => "Unhandled error: " ++ m
  | .badPrevJson => "Unhandled error: invalid JSON in previous snapshot"

/-- What one run leaves behind: exit code, final filesystem, the lines
printed to stdout and stderr, and whether the posting client was invoked. -/
structure RunResult where
  exitCode : Nat
  fs : FSys
  stdout : List String
  stderr : List String
  postAttempted : Bool
deriving Repr

/-- The filesystem after the archive write: the snapshot's JSON dump
plus the trailing newline at today's archive path. -/
def archiveFS (w : World) (stats : JDict) : FSys :=
  fsWrite w.fs0 (ensure_archive_path w.now) (String.mk (dumpDict stats ++ ['\n']))

/-- The tail of `main` from the `print(post_text)` on: print the report,
try to publish, demote any publish failure to a stderr warning, exit 0. -/
def runPublish (text : String) (fs1 : FSys) :
    Bool × Except String Unit → RunResult
  | (att, Except.ok _) =>
    { exitCode := 0, fs := fs1, stdout := [text], stderr := [],
      postAttempted := att }
  | (att, Except.error m) =>
    { exitCode := 0, fs := fs1, stdout := [text],
      stderr := ["Warning: Failed to post to Bluesky: " ++ m],
      postAttempted := att }

/-- `main` after the archive write, branching on the previous-snapshot
load (whose failure raises to the top-level handler: exit 1, nothing
printed to stdout). -/
def runPost (w : World) (stats : JDict) (fs1 : FSys) :
    Except MainErr (Option JDict) → RunResult
  | Except.error e =>
    { exitCode := 1, fs := fs1, stdout := [], stderr := [errLine e],
      postAttempted := false }
  | Except.ok prevStats =>
    runPublish (compose_post_text w.now stats (compute_deltas stats prevStats))
      fs1 (post_to_bluesky w.env w.publish)

/-- `main` branching on the fetch: a raising fetch aborts with exit code 1
and an untouched filesystem; otherwise write the archive file (the
parents' `mkdir` has no content in the files-only model) and continue. -/
def runWith (w : World) : Except MainErr JDict → RunResult
  | Except.error e =>
    { exitCode := 1, fs := w.fs0, stdout := [], stderr := [errLine e],
      postAttempted := false }
  | Except.ok stats =>
    runPost w stats (archiveFS w stats)
      (loadPrevStats (archiveFS w stats)
        (find_previous_snapshot (archiveFS w stats) w.now))

/-- One whole run: `main()` under the `__main__` exception handlers. -/
def run (w : World) : RunResult := runWith w (fetch_stats w)

example :
    find_previous_snapshot
      [(["data", "2024", "01", "2024-01-01.json"], "a"),
        (["data", "2024", "01", "2024-01-02.json"], "b")]
      ⟨⟨2024, 1, 3⟩, 0, 0⟩ = some ["data", "2024", "01", "2024-01-02.json"] := by
  decide

example :
    find_previous_snapshot
      [(["data", "2024", "01", "2024-01-01.json"], "a")]
      ⟨⟨2024, 1, 3⟩, 0, 0⟩ = some ["data", "2024", "01", "2024-01-01.json"] := by
  decide

example : find_previous_snapshot [] ⟨⟨2024, 1, 3⟩, 0, 0⟩ = none := by decide

example : parse_snapshot_date ["data", "2024", "01", "notes.json"] = none := by
  decide

example :
    parse_snapshot_date ["data", "2024", "01", "2024-02-30.json"] = none := by
  decide

/-! ### Basic lemmas about digits, formatting and dates -/

lemma charVal_digitCh {k : Nat} (h : k < 10) : charVal (digitCh k) = k := by
  interval_cases k <;> decide

lemma isDigitCh_digitCh (k : Nat) : isDigitCh (digitCh k) = true := by
  by_cases h : k < 10
  · interval_cases k <;> decide
  · have : digitCh k = '0' := by
      unfold digitCh
      rw [List.getD_eq_default]
      simp only [List.length_cons, List.length_nil]
      omega
    rw [this]; decide

lemma isDigitCh_ne_dot {c : Char} (h : isDigitCh c = true) : ¬ c = '.' := by
  intro heq
  rw [heq] at h
  exact absurd h (by decide)

lemma year_digits {y : Nat} (h : y ≤ 9999) :
    charVal (digitCh (y / 1000 % 10)) * 1000 + charVal (digitCh (y / 100 % 10)) * 100 +
      charVal (digitCh (y / 10 % 10)) * 10 + charVal (digitCh (y % 10)) = y := by
  rw [charVal_digitCh (Nat.mod_lt _ (by omega)),
    charVal_digitCh (Nat.mod_lt _ (by omega)),
    charVal_digitCh (Nat.mod_lt _ (by omega)),
    charVal_digitCh (Nat.mod_lt _ (by omega))]
  omega

lemma daysInMonth_pos (y m : Nat) : 1 ≤ daysInMonth y m := by
  unfold daysInMonth
  split
  · split <;> omega
  all_goals omega

lemma daysInMonth_le (y m : Nat) : daysInMonth y m ≤ 31 := by
  unfold daysInMonth
  split
  · split <;> omega
  all_goals omega

lemma parseMonth_fmt2 {m : Nat} (h1 : 1 ≤ m) (h2 : m ≤ 12) (rest : List Char) :
    parseMonthChars (fmt2c m ++ rest) = some (m, rest) := by
  interval_cases m <;> rfl

lemma parseDay_fmt2 {d : Nat} (h1 : 1 ≤ d) (h2 : d ≤ 31) :
    parseDayChars (fmt2c d) = some (d, []) := by
  interval_cases d <;> rfl

lemma dateStr_no_dot (d : Date) : ∀ c ∈ dateStrChars d, ¬ c = '.' := by
  have hd2 : ∀ k, ¬ ('.' : Char) = digitCh k := fun k h =>
    isDigitCh_ne_dot (isDigitCh_digitCh k) h.symm
  intro c hc heq
  subst heq
  simp only [dateStrChars, fmt4c, fmt2c, List.mem_append, List.mem_cons,
    List.not_mem_nil, or_false, hd2, false_or, or_self] at hc
  exact absurd hc (by decide)

lemma dateStr_ne_nil (d : Date) : dateStrChars d ≠ [] := by
  simp [dateStrChars, fmt4c]

lemma breakDot_prefix :
    ∀ (a b : List Char), (∀ x ∈ a, ¬ x = '.') →
      breakDot (a ++ '.' :: b) = (a, '.' :: b) := by
  intro a
  induction a with
  | nil => intro b _; simp [breakDot]
  | cons x xs ih =>
    intro b ha
    have hx : ¬ x = '.' := ha x (by simp)
    simp [breakDot, hx, ih b (fun z hz => ha z (by simp [hz]))]

lemma stemChars_append_json {s : List Char} (hne : s ≠ [])
    (hnd : ∀ c ∈ s, ¬ c = '.') :
    stemChars (s ++ ['.', 'j', 's', 'o', 'n']) = s := by
  unfold stemChars
  have hrev : (s ++ ['.', 'j', 's', 'o', 'n']).reverse =
      ['n', 'o', 's', 'j'] ++ '.' :: s.reverse := by
    simp [List.reverse_append]
  rw [hrev, breakDot_prefix ['n', 'o', 's', 'j'] s.reverse (by decide)]
  show (if (['n', 'o', 's', 'j'] : List Char).isEmpty = true ∨
      s.reverse.isEmpty = true then s ++ ['.', 'j', 's', 'o', 'n']
    else s.reverse.reverse) = s
  have hcond : ¬ ((['n', 'o', 's', 'j'] : List Char).isEmpty = true ∨
      s.reverse.isEmpty = true) := by
    rintro (h | h)
    · exact absurd h (by decide)
    · rw [List.isEmpty_iff] at h
      exact hne (List.reverse_eq_nil_iff.mp h)
  rw [if_neg hcond]
  exact s.reverse_reverse

lemma strptimeMD_eq {rest : List Char} {m : Nat} {rest2 : List Char}
    (y : Nat) (h : parseMonthChars rest = some (m, '-' :: rest2)) :
    strptimeMD y rest = strptimeD y m rest2 := by
  rw [strptimeMD, h]
  rfl

lemma strptimeD_eq {rest2 : List Char} {dd : Nat}
    (y m : Nat) (h : parseDayChars rest2 = some (dd, [])) :
    strptimeD y m rest2 =
      if 1 ≤ y ∧ dd ≤ daysInMonth y m then some ⟨y, m, dd⟩ else none := by
  rw [strptimeD, h]

theorem strptime_roundtrip {d : Date} (h : d.Valid) :
    strptimeChars (dateStrChars d) = some d := by
  obtain ⟨hy1, hy2, hm1, hm2, hd1, hd2⟩ := h
  have hd31 : d.day ≤ 31 := le_trans hd2 (daysInMonth_le _ _)
  show strptimeChars
      (fmt4c d.year ++ '-' :: fmt2c d.month ++ '-' :: fmt2c d.day) = some d
  simp only [fmt4c, List.cons_append, List.nil_append]
  rw [strptimeChars]
  rw [isDigitCh_digitCh, isDigitCh_digitCh, isDigitCh_digitCh, isDigitCh_digitCh]
  simp only [Bool.and_self, if_true]
  rw [year_digits hy2]
  rw [strptimeMD_eq d.year (parseMonth_fmt2 hm1 hm2 ('-' :: fmt2c d.day))]
  rw [strptimeD_eq d.year d.month (parseDay_fmt2 hd1 hd31)]
  rw [if_pos ⟨hy1, hd2⟩]

lemma daysInMonth_twelve (y : Nat) : daysInMonth y 12 = 31 := rfl

lemma prevDate_valid {d : Date} (h : d.Valid) (hne : d ≠ ⟨1, 1, 1⟩) :
    (prevDate d).Valid := by
  obtain ⟨hy1, hy2, hm1, hm2, hd1, hd2⟩ := h
  unfold prevDate
  split_ifs with h1 h2
  · refine ⟨hy1, hy2, hm1, hm2, ?_, ?_⟩
    · show 1 ≤ d.day - 1
      omega
    · show d.day - 1 ≤ daysInMonth d.year d.month
      omega
  · refine ⟨hy1, hy2, ?_, ?_, ?_, ?_⟩
    · show 1 ≤ d.month - 1
      omega
    · show d.month - 1 ≤ 12
      omega
    · exact daysInMonth_pos _ _
    · exact Nat.le.refl
  · have hy : 2 ≤ d.year := by
      by_contra hlt
      apply hne
      have hyy : d.year = 1 := by omega
      have hmm : d.month = 1 := by omega
      have hdd : d.day = 1 := by omega
      rcases d with ⟨y, m, dd⟩
      simp_all
    refine ⟨?_, ?_, ?_, ?_, ?_, ?_⟩
    · show 1 ≤ d.year - 1
      omega
    · show d.year - 1 ≤ 9999
      omega
    · show (1 : Nat) ≤ 12
      omega
    · show (12 : Nat) ≤ 12
      omega
    · show (1 : Nat) ≤ 31
      omega
    · show (31 : Nat) ≤ daysInMonth (d.year - 1) 12
      rw [daysInMonth_twelve]

lemma prevDate_lt {d : Date} (h : d.Valid) : dateLt (prevDate d) d = true := by
  obtain ⟨hy1, hy2, hm1, hm2, hd1, hd2⟩ := h
  rcases d with ⟨y, m, dd⟩
  simp only at hy1 hy2 hm1 hm2 hd1 hd2
  unfold prevDate
  split_ifs with h1 h2 <;>
    simp only [dateLt, Bool.or_eq_true, Bool.and_eq_true, decide_eq_true_eq,
      true_and, and_true] at * <;>
    omega

/-! ### Lemmas about the maximum-candidate fold -/

/-- `a` is no later than `b` (Python `<=` on dates). -/
def dateLe (a b : Date) : Prop := dateLt a b = true ∨ a = b

lemma dateLe_refl (a : Date) : dateLe a a := Or.inr rfl

lemma dateLt_total (a b : Date) : dateLt a b = true ∨ a = b ∨ dateLt b a = true := by
  rcases a with ⟨ya, ma, da⟩
  rcases b with ⟨yb, mb, db⟩
  simp only [dateLt, Bool.or_eq_true, Bool.and_eq_true, decide_eq_true_eq,
    Date.mk.injEq]
  omega

lemma dateLe_trans {a b c : Date} (h1 : dateLe a b) (h2 : dateLe b c) :
    dateLe a c := by
  rcases h1 with h1 | rfl
  · rcases h2 with h2 | rfl
    · left
      rcases a with ⟨ya, ma, da⟩
      rcases b with ⟨yb, mb, db⟩
      rcases c with ⟨yc, mc, dc⟩
      simp only [dateLt, Bool.or_eq_true, Bool.and_eq_true, decide_eq_true_eq] at *
      omega
    · exact Or.inl h1
  · exact h2

lemma foldl_pick_mem :
    ∀ (xs : List (Date × FPath)) (a : Date × FPath),
      xs.foldl pickStep a = a ∨ xs.foldl pickStep a ∈ xs := by
  intro xs
  induction xs with
  | nil => intro a; exact Or.inl rfl
  | cons x xs ih =>
    intro a
    simp only [List.foldl_cons]
    rcases ih (pickStep a x) with h | h
    · rw [h]
      unfold pickStep
      split_ifs
      · exact Or.inr (by simp)
      · exact Or.inl rfl
    · exact Or.inr (by simp [h])

lemma foldl_pick_ge :
    ∀ (xs : List (Date × FPath)) (a : Date × FPath),
      dateLe a.1 (xs.foldl pickStep a).1 ∧
        ∀ y ∈ xs, dateLe y.1 (xs.foldl pickStep a).1 := by
  intro xs
  induction xs with
  | nil => intro a; exact ⟨dateLe_refl _, by simp⟩
  | cons x xs ih =>
    intro a
    simp only [List.foldl_cons]
    have hstep_a : dateLe a.1 (pickStep a x).1 := by
      unfold pickStep
      split_ifs with hc
      · exact hc
      · exact dateLe_refl _
    have hstep_x : dateLe x.1 (pickStep a x).1 := by
      unfold pickStep
      split_ifs with hc
      · exact dateLe_refl _
      · rcases dateLt_total a.1 x.1 with h | h | h
        · exact absurd (Or.inl h) hc
        · exact absurd (Or.inr h) hc
        · exact Or.inl h
    obtain ⟨ih1, ih2⟩ := ih (pickStep a x)
    refine ⟨dateLe_trans hstep_a ih1, ?_⟩
    intro y hy
    rcases List.mem_cons.mp hy with rfl | hy
    · exact dateLe_trans hstep_x ih1
    · exact ih2 y hy

lemma pickLatest_mem {l : List (Date × FPath)} {x : Date × FPath}
    (h : pickLatest l = some x) : x ∈ l := by
  match l with
  | [] => simp [pickLatest] at h
  | a :: xs =>
    simp only [pickLatest, Option.some.injEq] at h
    rcases foldl_pick_mem xs a with h2 | h2
    · rw [← h, h2]; simp
    · rw [← h]; simp [h2]

lemma pickLatest_max {l : List (Date × FPath)} {x : Date × FPath}
    (h : pickLatest l = some x) : ∀ y ∈ l, dateLe y.1 x.1 := by
  match l with
  | [] => simp [pickLatest] at h
  | a :: xs =>
    simp only [pickLatest, Option.some.injEq] at h
    intro y hy
    obtain ⟨h1, h2⟩ := foldl_pick_ge xs a
    rcases List.mem_cons.mp hy with rfl | hy
    · rw [← h]; exact h1
    · rw [← h]; exact h2 y hy

lemma pickLatest_eq_none {l : List (Date × FPath)} :
    pickLatest l = none ↔ l = [] := by
  match l with
  | [] => simp [pickLatest]
  | a :: xs => simp [pickLatest]

/-! ### Characterizing the fallback candidates -/

lemma candFn_eq_some {today d : Date} {p q : FPath} :
    candFn today q = some (d, p) ↔
      q = p ∧ parse_snapshot_date p = some d ∧ dateLt d today = true := by
  unfold candFn
  cases hparse : parse_snapshot_date q with
  | none =>
    rw [Option.none_bind']
    constructor
    · intro h; exact absurd h (by simp)
    · rintro ⟨rfl, hp2, _⟩
      rw [hparse] at hp2
      exact absurd hp2 (by simp)
  | some d2 =>
    rw [Option.some_bind']
    split_ifs with hlt
    · simp only [Option.some.injEq, Prod.mk.injEq]
      constructor
      · rintro ⟨rfl, rfl⟩
        exact ⟨rfl, hparse, hlt⟩
      · rintro ⟨rfl, hp2, _⟩
        rw [hparse] at hp2
        injection hp2 with h3
        exact ⟨h3, rfl⟩
    · constructor
      · intro h; exact absurd h (by simp)
      · rintro ⟨rfl, hp2, hlt2⟩
        rw [hparse] at hp2
        injection hp2 with h3
        subst h3
        exact absurd hlt2 hlt

lemma mem_snapshotCandidates {fs : FSys} {now : DateTime} {d : Date} {p : FPath} :
    (d, p) ∈ snapshotCandidates fs now ↔
      p ∈ fs.map Prod.fst ∧ underData p = true ∧
        endsWithJson (lastSeg p) = true ∧ parse_snapshot_date p = some d ∧
        dateLt d now.date = true := by
  unfold snapshotCandidates
  rw [List.mem_filterMap]
  constructor
  · rintro ⟨q, hq, hf⟩
    rw [candFn_eq_some] at hf
    obtain ⟨rfl, hp, hlt⟩ := hf
    rw [List.mem_filter] at hq
    obtain ⟨hmem, hpred⟩ := hq
    rw [Bool.and_eq_true] at hpred
    exact ⟨hmem, hpred.1, hpred.2, hp, hlt⟩
  · rintro ⟨hmem, hu, hj, hp, hlt⟩
    refine ⟨p, ?_, ?_⟩
    · rw [List.mem_filter]
      exact ⟨hmem, by rw [Bool.and_eq_true]; exact ⟨hu, hj⟩⟩
    · rw [candFn_eq_some]
      exact ⟨rfl, hp, hlt⟩

lemma snapshotCandidates_no_data {fs : FSys} {now : DateTime}
    (h : ¬ ∃ e ∈ fs, underData e.1 = true) : snapshotCandidates fs now = [] := by
  unfold snapshotCandidates
  have hfil : (fs.map Prod.fst).filter
      (fun p => underData p && endsWithJson (lastSeg p)) = [] := by
    rw [List.filter_eq_nil]
    intro a ha
    rw [List.mem_map] at ha
    obtain ⟨e, he, rfl⟩ := ha
    intro hand
    rw [Bool.and_eq_true] at hand
    exact h ⟨e, he, hand.1⟩
  rw [hfil]
  rfl

/-! ### Claims C1, C2, C10: the history locator -/

/-- C1: if the file at `data/<YYYY>/<MM>/<YYYY-MM-DD>.json` for the day
before `now_dt` exists, `find_previous_snapshot` returns exactly that
path. -/
theorem claim_C1_yesterday_preference (fs : FSys) (now : DateTime)
    (hv : now.date.Valid)
    (hmem : ∃ e ∈ fs, e.1 = yesterdayPath now) :
    find_previous_snapshot fs now = some (yesterdayPath now) := by
  have hu : underData (yesterdayPath now) = true := rfl
  obtain ⟨e, he, heq⟩ := hmem
  unfold find_previous_snapshot
  rw [if_neg (fun hno => hno ⟨e, he, by rw [heq, hu]⟩), if_pos ⟨e, he, heq⟩]

/-- C1 witness: with archives for 2024-01-02 and 2024-01-01 and current
date 2024-01-03, the 2024-01-02 file is returned. -/
theorem claim_C1_yesterday_preference_witness :
    (⟨⟨2024, 1, 3⟩, 12, 0⟩ : DateTime).date.Valid ∧
    (∃ e ∈ ([(["data", "2024", "01", "2024-01-01.json"], "a"),
        (["data", "2024", "01", "2024-01-02.json"], "b")] : FSys),
      e.1 = yesterdayPath ⟨⟨2024, 1, 3⟩, 12, 0⟩) ∧
    find_previous_snapshot
        [(["data", "2024", "01", "2024-01-01.json"], "a"),
          (["data", "2024", "01", "2024-01-02.json"], "b")]
        ⟨⟨2024, 1, 3⟩, 12, 0⟩ =
      some ["data", "2024", "01", "2024-01-02.json"] := by
  refine ⟨by decide, by decide, ?_⟩
  have h := claim_C1_yesterday_preference
    [(["data", "2024", "01", "2024-01-01.json"], "a"),
      (["data", "2024", "01", "2024-01-02.json"], "b")]
    ⟨⟨2024, 1, 3⟩, 12, 0⟩ (by decide) (by decide)
  rw [h]
  decide

/-- C2: when yesterday's exact file is absent, the result is `none` iff
there is no candidate (including an absent/empty data directory); the
candidates are exactly the `*.json` files under `data` whose stem parses
as a date strictly earlier than today; and any returned path is a
candidate of maximal date. -/
theorem claim_C2_fallback_scan (fs : FSys) (now : DateTime)
    (hv : now.date.Valid)
    (hnoyest : ¬ ∃ e ∈ fs, e.1 = yesterdayPath now) :
    (find_previous_snapshot fs now = none ↔ snapshotCandidates fs now = []) ∧
    (∀ d p, (d, p) ∈ snapshotCandidates fs now ↔
      (p ∈ fs.map Prod.fst ∧ underData p = true ∧
        endsWithJson (lastSeg p) = true ∧ parse_snapshot_date p = some d ∧
        dateLt d now.date = true)) ∧
    (∀ p, find_previous_snapshot fs now = some p →
      ∃ d, (d, p) ∈ snapshotCandidates fs now ∧
        ∀ d2 p2, (d2, p2) ∈ snapshotCandidates fs now →
          (dateLt d2 d = true ∨ d2 = d)) := by
  refine ⟨?_, fun d p => mem_snapshotCandidates, ?_⟩
  · by_cases hdata : ∃ e ∈ fs, underData e.1 = true
    · unfold find_previous_snapshot
      rw [if_neg (not_not_intro hdata), if_neg hnoyest]
      constructor
      · intro h
        cases hpl : pickLatest (snapshotCandidates fs now) with
        | none => exact pickLatest_eq_none.mp hpl
        | some x => rw [hpl] at h; exact absurd h (by simp)
      · intro h
        rw [h]
        rfl
    · unfold find_previous_snapshot
      rw [if_pos hdata]
      exact ⟨fun _ => snapshotCandidates_no_data hdata, fun _ => rfl⟩
  · intro p hp
    unfold find_previous_snapshot at hp
    by_cases hdata : ∃ e ∈ fs, underData e.1 = true
    · rw [if_neg (not_not_intro hdata), if_neg hnoyest] at hp
      cases hpl : pickLatest (snapshotCandidates fs now) with
      | none => rw [hpl] at hp; exact absurd hp (by simp)
      | some x =>
        rw [hpl] at hp
        simp only [Option.map_some', Option.some.injEq] at hp
        refine ⟨x.1, ?_, ?_⟩
        · rw [← hp, Prod.mk.eta]
          exact pickLatest_mem hpl
        · intro d2 p2 h2
          exact pickLatest_max hpl (d2, p2) h2
    · rw [if_pos hdata] at hp
      exact absurd hp (by simp)

/-- C2 witness: archive with only 2024-01-01 plus a stray non-dated file,
current date 2024-01-03 (no exact-yesterday file present). -/
theorem claim_C2_fallback_scan_witness :
    (⟨⟨2024, 1, 3⟩, 12, 0⟩ : DateTime).date.Valid ∧
    ¬ (∃ e ∈ ([(["data", "2024", "01", "2024-01-01.json"], "a"),
        (["data", "2024", "01", "notes.json"], "x")] : FSys),
      e.1 = yesterdayPath ⟨⟨2024, 1, 3⟩, 12, 0⟩) ∧
    ((find_previous_snapshot
        [(["data", "2024", "01", "2024-01-01.json"], "a"),
          (["data", "2024", "01", "notes.json"], "x")] ⟨⟨2024, 1, 3⟩, 12, 0⟩ = none ↔
      snapshotCandidates
        [(["data", "2024", "01", "2024-01-01.json"], "a"),
          (["data", "2024", "01", "notes.json"], "x")] ⟨⟨2024, 1, 3⟩, 12, 0⟩ = []) ∧
    (∀ d p, (d, p) ∈ snapshotCandidates
        [(["data", "2024", "01", "2024-01-01.json"], "a"),
          (["data", "2024", "01", "notes.json"], "x")] ⟨⟨2024, 1, 3⟩, 12, 0⟩ ↔
      (p ∈ ([(["data", "2024", "01", "2024-01-01.json"], "a"),
          (["data", "2024", "01", "notes.json"], "x")] : FSys).map Prod.fst ∧
        underData p = true ∧
        endsWithJson (lastSeg p) = true ∧ parse_snapshot_date p = some d ∧
        dateLt d (⟨⟨2024, 1, 3⟩, 12, 0⟩ : DateTime).date = true)) ∧
    (∀ p, find_previous_snapshot
        [(["data", "2024", "01", "2024-01-01.json"], "a"),
          (["data", "2024", "01", "notes.json"], "x")] ⟨⟨2024, 1, 3⟩, 12, 0⟩ = some p →
      ∃ d, (d, p) ∈ snapshotCandidates
          [(["data", "2024", "01", "2024-01-01.json"], "a"),
            (["data", "2024", "01", "notes.json"], "x")] ⟨⟨2024, 1, 3⟩, 12, 0⟩ ∧
        ∀ d2 p2, (d2, p2) ∈ snapshotCandidates
            [(["data", "2024", "01", "2024-01-01.json"], "a"),
              (["data", "2024", "01", "notes.json"], "x")] ⟨⟨2024, 1, 3⟩, 12, 0⟩ →
          (dateLt d2 d = true ∨ d2 = d))) :=
  ⟨by decide, by decide,
    claim_C2_fallback_scan
      [(["data", "2024", "01", "2024-01-01.json"], "a"),
        (["data", "2024", "01", "notes.json"], "x")]
      ⟨⟨2024, 1, 3⟩, 12, 0⟩ (by decide) (by decide)⟩

/-- C10: whenever `find_previous_snapshot` returns a path, that path's
stem parses as a date strictly earlier than today's calendar date, on
both the exact-yesterday branch and the fallback scan. -/
theorem claim_C10_result_predates_today (fs : FSys) (now : DateTime)
    (hv : now.date.Valid) (hmin : now.date ≠ ⟨1, 1, 1⟩) :
    ∀ p, find_previous_snapshot fs now = some p →
      ∃ d, parse_snapshot_date p = some d ∧ dateLt d now.date = true := by
  intro p hp
  unfold find_previous_snapshot at hp
  by_cases hdata : ∃ e ∈ fs, underData e.1 = true
  · rw [if_neg (not_not_intro hdata)] at hp
    by_cases hyest : ∃ e ∈ fs, e.1 = yesterdayPath now
    · rw [if_pos hyest] at hp
      injection hp with hp2
      subst hp2
      refine ⟨prevDate now.date, ?_, prevDate_lt hv⟩
      show strptimeChars (stemChars (lastSeg (yesterdayPath now)).toList) = _
      have hlast : (lastSeg (yesterdayPath now)).toList =
          dateStrChars (prevDate now.date) ++ ['.', 'j', 's', 'o', 'n'] := rfl
      rw [hlast, stemChars_append_json (dateStr_ne_nil _) (dateStr_no_dot _)]
      exact strptime_roundtrip (prevDate_valid hv hmin)
    · rw [if_neg hyest] at hp
      cases hpl : pickLatest (snapshotCandidates fs now) with
      | none => rw [hpl] at hp; exact absurd hp (by simp)
      | some x =>
        rw [hpl] at hp
        simp only [Option.map_some', Option.some.injEq] at hp
        have hx : (x.1, x.2) ∈ snapshotCandidates fs now := by
          rw [Prod.mk.eta]
          exact pickLatest_mem hpl
        rw [mem_snapshotCandidates] at hx
        refine ⟨x.1, ?_, hx.2.2.2.2⟩
        rw [← hp]
        exact hx.2.2.2.1
  · rw [if_pos hdata] at hp
    exact absurd hp (by simp)

/-- C10 witness at a concrete archive and date (exercising the
exact-yesterday branch). -/
theorem claim_C10_result_predates_today_witness :
    (⟨⟨2024, 3, 1⟩, 6, 30⟩ : DateTime).date.Valid ∧
    (⟨⟨2024, 3, 1⟩, 6, 30⟩ : DateTime).date ≠ ⟨1, 1, 1⟩ ∧
    (∀ p, find_previous_snapshot
        [(["data", "2024", "02", "2024-02-29.json"], "s")]
        ⟨⟨2024, 3, 1⟩, 6, 30⟩ = some p →
      ∃ d, parse_snapshot_date p = some d ∧
        dateLt d (⟨⟨2024, 3, 1⟩, 6, 30⟩ : DateTime).date = true) :=
  ⟨by decide, by decide,
    claim_C10_result_predates_today
      [(["data", "2024", "02", "2024-02-29.json"], "s")]
      ⟨⟨2024, 3, 1⟩, 6, 30⟩ (by decide) (by decide)⟩

/-! ### Claims C3, C4, C9, C5: validation, deltas and the report -/

lemma firstMissing_eq_none {data : JDict} :
    ∀ ks : List String, firstMissing data ks = none ↔
      ∀ k ∈ ks, dictHasB data k = true := by
  intro ks
  induction ks with
  | nil => simp [firstMissing]
  | cons k0 ks ih =>
    unfold firstMissing
    by_cases h : dictHasB data k0 = true
    · rw [if_pos h, ih]
      constructor
      · intro hall k hk
        rcases List.mem_cons.mp hk with rfl | hk2
        · exact h
        · exact hall k hk2
      · intro hall k hk
        exact hall k (List.mem_cons_of_mem _ hk)
    · rw [if_neg h]
      constructor
      · intro habs
        exact absurd habs (by simp)
      · intro hall
        exact absurd (hall k0 (by simp)) h

lemma firstMissing_eq_some {data : JDict} {k : String} :
    ∀ ks : List String, k ∈ ks → dictHasB data k = false →
      (∀ k2 ∈ ks, k2 ≠ k → dictHasB data k2 = true) →
      firstMissing data ks = some k := by
  intro ks
  induction ks with
  | nil => intro h _ _; exact absurd h (by simp)
  | cons k0 ks ih =>
    intro hmem hmiss hothers
    unfold firstMissing
    by_cases heq : k0 = k
    · subst heq
      rw [if_neg (by rw [hmiss]; exact Bool.false_ne_true)]
    · have hk0 : dictHasB data k0 = true := hothers k0 (by simp) heq
      rw [if_pos hk0]
      refine ih ?_ hmiss ?_
      · rcases List.mem_cons.mp hmem with rfl | h2
        · exact absurd rfl heq
        · exact h2
      · intro k2 hk2 hne
        exact hothers k2 (List.mem_cons_of_mem _ hk2) hne

/-- C3: validation succeeds iff all seven required keys are present; with
exactly one required key missing, `fetch_stats` (on a successful HTTP
response) raises a validation error whose message names that key, so no
further processing happens. -/
theorem claim_C3_fetch_validation (w : World) (data : JDict) (status : Nat)
    (hst : status < 400)
    (hresp : w.fetch = FetchOutcome.response status data) :
    (validateStats data = Except.ok data ↔
      ∀ k ∈ required_keys, dictHasB data k = true) ∧
    (∀ k ∈ required_keys, dictHasB data k = false →
      (∀ k2 ∈ required_keys, k2 ≠ k → dictHasB data k2 = true) →
      fetch_stats w =
        Except.error (MainErr.validation ("Missing key in response: " ++ k))) := by
  constructor
  · unfold validateStats
    cases hfm : firstMissing data required_keys with
    | none =>
      simp only [Option.elim]
      exact ⟨fun _ => firstMissing_eq_none required_keys |>.mp hfm,
        fun _ => trivial⟩
    | some k0 =>
      simp only [Option.elim]
      constructor
      · intro habs
        exact absurd habs (by simp)
      · intro hall
        rw [(firstMissing_eq_none required_keys).mpr hall] at hfm
        exact absurd hfm (by simp)
  · intro k hk hmiss hothers
    have hval : validateStats data =
        Except.error ("Missing key in response: " ++ k) := by
      unfold validateStats
      rw [firstMissing_eq_some required_keys hk hmiss hothers]
      rfl
    unfold fetch_stats
    rw [hresp, fetchStatsOf, if_neg (by omega), hval]
    rfl

/-- C3 witness: a response missing exactly `total_follows` is rejected
with an error naming it; a full snapshot passes. -/
theorem claim_C3_fetch_validation_witness :
    (200 : Nat) < 400 ∧
    (World.fetch
        { now := ⟨⟨2024, 1, 3⟩, 12, 0⟩,
          fetch := FetchOutcome.response 200
            [("total_users", JVal.jint 1), ("total_posts", JVal.jint 2),
              ("total_likes", JVal.jint 4),
              ("users_growth_rate_per_second", JVal.jfloat 1),
              ("last_update_time", JVal.jstr "t"),
              ("next_update_time", JVal.jstr "u")],
          fs0 := [], env := ⟨none, none⟩, publish := Except.ok () } =
      FetchOutcome.response 200
        [("total_users", JVal.jint 1), ("total_posts", JVal.jint 2),
          ("total_likes", JVal.jint 4),
          ("users_growth_rate_per_second", JVal.jfloat 1),
          ("last_update_time", JVal.jstr "t"),
          ("next_update_time", JVal.jstr "u")]) ∧
    ((validateStats
        [("total_users", JVal.jint 1), ("total_posts", JVal.jint 2),
          ("total_likes", JVal.jint 4),
          ("users_growth_rate_per_second", JVal.jfloat 1),
          ("last_update_time", JVal.jstr "t"),
          ("next_update_time", JVal.jstr "u")] =
      Except.ok
        [("total_users", JVal.jint 1), ("total_posts", JVal.jint 2),
          ("total_likes", JVal.jint 4),
          ("users_growth_rate_per_second", JVal.jfloat 1),
          ("last_update_time", JVal.jstr "t"),
          ("next_update_time", JVal.jstr "u")] ↔
      ∀ k ∈ required_keys, dictHasB
        [("total_users", JVal.jint 1), ("total_posts", JVal.jint 2),
          ("total_likes", JVal.jint 4),
          ("users_growth_rate_per_second", JVal.jfloat 1),
          ("last_update_time", JVal.jstr "t"),
          ("next_update_time", JVal.jstr "u")] k = true) ∧
    (∀ k ∈ required_keys, dictHasB
        [("total_users", JVal.jint 1), ("total_posts", JVal.jint 2),
          ("total_likes", JVal.jint 4),
          ("users_growth_rate_per_second", JVal.jfloat 1),
          ("last_update_time", JVal.jstr "t"),
          ("next_update_time", JVal.jstr "u")] k = false →
      (∀ k2 ∈ required_keys, k2 ≠ k → dictHasB
        [("total_users", JVal.jint 1), ("total_posts", JVal.jint 2),
          ("total_likes", JVal.jint 4),
          ("users_growth_rate_per_second", JVal.jfloat 1),
          ("last_update_time", JVal.jstr "t"),
          ("next_update_time", JVal.jstr "u")] k2 = true) →
      fetch_stats
        { now := ⟨⟨2024, 1, 3⟩, 12, 0⟩,
          fetch := FetchOutcome.response 200
            [("total_users", JVal.jint 1), ("total_posts", JVal.jint 2),
              ("total_likes", JVal.jint 4),
              ("users_growth_rate_per_second", JVal.jfloat 1),
              ("last_update_time", JVal.jstr "t"),
              ("next_update_time", JVal.jstr "u")],
          fs0 := [], env := ⟨none, none⟩, publish := Except.ok () } =
        Except.error (MainErr.validation ("Missing key in response: " ++ k)))) :=
  ⟨by decide, rfl,
    claim_C3_fetch_validation _ _ 200 (by decide) rfl⟩

/-- C4: with both snapshots carrying the metric fields, the deltas are
the exact signed differences (integers for the three counts, the exact
rational difference for the rate); with no previous snapshot every
component is `none`. -/
theorem claim_C4_delta_computation (current prevd : JDict)
    (cu cp cl : ℤ) (cr : ℚ) (pu pp pl : ℤ) (pr : ℚ)
    (hcu : dictGet? current "total_users" = some (JVal.jint cu))
    (hcp : dictGet? current "total_posts" = some (JVal.jint cp))
    (hcl : dictGet? current "total_likes" = some (JVal.jint cl))
    (hcr : dictGet? current "users_growth_rate_per_second" = some (JVal.jfloat cr))
    (hpu : dictGet? prevd "total_users" = some (JVal.jint pu))
    (hpp : dictGet? prevd "total_posts" = some (JVal.jint pp))
    (hpl : dictGet? prevd "total_likes" = some (JVal.jint pl))
    (hpr : dictGet? prevd "users_growth_rate_per_second" = some (JVal.jfloat pr)) :
    compute_deltas current (some prevd) =
      (some (cu - pu), some (cp - pp), some (cl - pl), some (cr - pr)) ∧
    compute_deltas current none = (none, none, none, none) := by
  refine ⟨?_, rfl⟩
  have hne : prevd.isEmpty = false := by
    cases prevd with
    | nil => simp [dictGet?] at hpu
    | cons a l => rfl
  rw [compute_deltas,
    if_neg (by rw [hne]; exact Bool.false_ne_true)]
  simp only [dictGetD, hcu, hcp, hcl, hcr, hpu, hpp, hpl, hpr,
    Option.getD_some, valToInt, valToQ]

/-- C4 witness: the spec's example — users 1000/950, likes 500/480, rate
2.5/2.1 — yields deltas 50, 20 and exactly 2/5 (= 0.4). -/
theorem claim_C4_delta_computation_witness :
    dictGet? [("total_users", JVal.jint 1000), ("total_posts", JVal.jint 2000),
        ("total_likes", JVal.jint 500),
        ("users_growth_rate_per_second", JVal.jfloat (5 / 2))]
      "total_users" = some (JVal.jint 1000) ∧
    compute_deltas
        [("total_users", JVal.jint 1000), ("total_posts", JVal.jint 2000),
          ("total_likes", JVal.jint 500),
          ("users_growth_rate_per_second", JVal.jfloat (5 / 2))]
        (some [("total_users", JVal.jint 950), ("total_posts", JVal.jint 1900),
          ("total_likes", JVal.jint 480),
          ("users_growth_rate_per_second", JVal.jfloat (21 / 10))]) =
      (some 50, some 100, some 20, some (2 / 5)) ∧
    compute_deltas
        [("total_users", JVal.jint 1000), ("total_posts", JVal.jint 2000),
          ("total_likes", JVal.jint 500),
          ("users_growth_rate_per_second", JVal.jfloat (5 / 2))] none =
      (none, none, none, none) := by
  refine ⟨rfl, ?_⟩
  have h := claim_C4_delta_computation
    [("total_users", JVal.jint 1000), ("total_posts", JVal.jint 2000),
      ("total_likes", JVal.jint 500),
      ("users_growth_rate_per_second", JVal.jfloat (5 / 2))]
    [("total_users", JVal.jint 950), ("total_posts", JVal.jint 1900),
      ("total_likes", JVal.jint 480),
      ("users_growth_rate_per_second", JVal.jfloat (21 / 10))]
    1000 2000 500 (5 / 2) 950 1900 480 (21 / 10)
    rfl rfl rfl rfl rfl rfl rfl rfl
  refine ⟨?_, h.2⟩
  rw [h.1]
  norm_num

/-- C9: a non-empty previous dict missing a metric key contributes a
default of 0 (0.0 for the rate), making that delta the current value
itself; an empty previous dict is treated like no previous snapshot. -/
theorem claim_C9_missing_prev_key_defaults (current prevd : JDict)
    (hne : prevd.isEmpty = false) :
    (dictHasB prevd "total_users" = false →
      (compute_deltas current (some prevd)).1 =
        some (valToInt (dictGetD current "total_users" (JVal.jint 0)))) ∧
    (dictHasB prevd "total_posts" = false →
      (compute_deltas current (some prevd)).2.1 =
        some (valToInt (dictGetD current "total_posts" (JVal.jint 0)))) ∧
    (dictHasB prevd "total_likes" = false →
      (compute_deltas current (some prevd)).2.2.1 =
        some (valToInt (dictGetD current "total_likes" (JVal.jint 0)))) ∧
    (dictHasB prevd "users_growth_rate_per_second" = false →
      (compute_deltas current (some prevd)).2.2.2 =
        some (valToQ (dictGetD current "users_growth_rate_per_second"
          (JVal.jfloat 0)))) ∧
    compute_deltas current (some []) = (none, none, none, none) := by
  have hred : compute_deltas current (some prevd) =
      (some (valToInt (dictGetD current "total_users" (JVal.jint 0)) -
          valToInt (dictGetD prevd "total_users" (JVal.jint 0))),
        some (valToInt (dictGetD current "total_posts" (JVal.jint 0)) -
          valToInt (dictGetD prevd "total_posts" (JVal.jint 0))),
        some (valToInt (dictGetD current "total_likes" (JVal.jint 0)) -
          valToInt (dictGetD prevd "total_likes" (JVal.jint 0))),
        some (valToQ (dictGetD current "users_growth_rate_per_second"
            (JVal.jfloat 0)) -
          valToQ (dictGetD prevd "users_growth_rate_per_second"
            (JVal.jfloat 0)))) := by
    rw [compute_deltas, if_neg (by rw [hne]; exact Bool.false_ne_true)]
  have habsent : ∀ k, dictHasB prevd k = false →
      ∀ v0, dictGetD prevd k v0 = v0 := by
    intro k hk v0
    unfold dictHasB at hk
    unfold dictGetD
    cases hg : dictGet? prevd k with
    | none => rfl
    | some v => rw [hg] at hk; exact absurd hk (by simp)
  refine ⟨?_, ?_, ?_, ?_, rfl⟩
  · intro hmiss
    rw [hred, habsent _ hmiss]
    simp [valToInt]
  · intro hmiss
    rw [hred, habsent _ hmiss]
    simp [valToInt]
  · intro hmiss
    rw [hred, habsent _ hmiss]
    simp [valToInt]
  · intro hmiss
    rw [hred, habsent _ hmiss]
    simp [valToQ]

/-- C9 witness: previous dict `{"total_users": 950}` misses the other
metric keys, so those deltas equal the current values. -/
theorem claim_C9_missing_prev_key_defaults_witness :
    ([("total_users", JVal.jint 950)] : JDict).isEmpty = false ∧
    ((dictHasB [("total_users", JVal.jint 950)] "total_users" = false →
      (compute_deltas [("total_likes", JVal.jint 500)]
          (some [("total_users", JVal.jint 950)])).1 =
        some (valToInt (dictGetD [("total_likes", JVal.jint 500)]
          "total_users" (JVal.jint 0)))) ∧
    (dictHasB [("total_users", JVal.jint 950)] "total_posts" = false →
      (compute_deltas [("total_likes", JVal.jint 500)]
          (some [("total_users", JVal.jint 950)])).2.1 =
        some (valToInt (dictGetD [("total_likes", JVal.jint 500)]
          "total_posts" (JVal.jint 0)))) ∧
    (dictHasB [("total_users", JVal.jint 950)] "total_likes" = false →
      (compute_deltas [("total_likes", JVal.jint 500)]
          (some [("total_users", JVal.jint 950)])).2.2.1 =
        some (valToInt (dictGetD [("total_likes", JVal.jint 500)]
          "total_likes" (JVal.jint 0)))) ∧
    (dictHasB [("total_users", JVal.jint 950)] "users_growth_rate_per_second" = false →
      (compute_deltas [("total_likes", JVal.jint 500)]
          (some [("total_users", JVal.jint 950)])).2.2.2 =
        some (valToQ (dictGetD [("total_likes", JVal.jint 500)]
          "users_growth_rate_per_second" (JVal.jfloat 0)))) ∧
    compute_deltas [("total_likes", JVal.jint 500)] (some []) =
      (none, none, none, none)) :=
  ⟨rfl, claim_C9_missing_prev_key_defaults
    [("total_likes", JVal.jint 500)] [("total_users", JVal.jint 950)] rfl⟩

/-- C5: the composed report is exactly the header line (UTC date and
time to minute precision), then the users/posts/likes lines (current
value thousands-grouped, an `(↑delta)` annotation exactly when that delta
is present), then the growth-rate line (`%.4f`, with a `(Δ…/s)`
annotation exactly when present), joined by single newlines; with all
deltas absent every annotation is omitted and each line still shows the
current value. -/
theorem claim_C5_report_format (now : DateTime) (current : JDict)
    (du dp dl : Option ℤ) (dr : Option ℚ) (u p l : ℤ) (r : ℚ)
    (hu : dictGetD current "total_users" (JVal.jint 0) = JVal.jint u)
    (hp : dictGetD current "total_posts" (JVal.jint 0) = JVal.jint p)
    (hl : dictGetD current "total_likes" (JVal.jint 0) = JVal.jint l)
    (hr : dictGetD current "users_growth_rate_per_second" (JVal.jfloat 0) =
      JVal.jfloat r) :
    compose_post_text now current (du, dp, dl, dr) =
      "Bluesky Daily Stats — " ++ String.mk (dateStrChars now.date) ++ " " ++
        String.mk (fmt2c now.hour) ++ ":" ++ String.mk (fmt2c now.minute) ++
        " UTC" ++ "\n" ++
      "Users: " ++ human_int u ++
        (match du with
          | some v => " (↑" ++ human_int v ++ ")"
          | none => "") ++ "\n" ++
      "Posts: " ++ human_int p ++
        (match dp with
          | some v => " (↑" ++ human_int v ++ ")"
          | none => "") ++ "\n" ++
      "Likes: " ++ human_int l ++
        (match dl with
          | some v => " (↑" ++ human_int v ++ ")"
          | none => "") ++ "\n" ++
      "Growth rate: " ++ human_rate r ++ "/s" ++
        (match dr with
          | some v => " (Δ" ++ human_rate v ++ "/s)"
          | none => "") := by
  simp only [compose_post_text, joinNl, headerLine, hu, hp, hl, hr,
    valToInt, valToQ, String.append_assoc]

/-- C5 witness: the spec's example snapshot with deltas
(50, 100, 20, 0.4) renders the expected lines, and with all deltas absent
the annotations disappear. -/
theorem claim_C5_report_format_witness :
    dictGetD [("total_users", JVal.jint 1000), ("total_posts", JVal.jint 2000),
        ("total_likes", JVal.jint 500),
        ("users_growth_rate_per_second", JVal.jfloat (5 / 2))]
      "total_users" (JVal.jint 0) = JVal.jint 1000 ∧
    compose_post_text ⟨⟨2024, 1, 3⟩, 12, 5⟩
        [("total_users", JVal.jint 1000), ("total_posts", JVal.jint 2000),
          ("total_likes", JVal.jint 500),
          ("users_growth_rate_per_second", JVal.jfloat (5 / 2))]
        (some 50, some 100, some 20, some (2 / 5)) =
      "Bluesky Daily Stats — " ++
        String.mk (dateStrChars (⟨⟨2024, 1, 3⟩, 12, 5⟩ : DateTime).date) ++ " " ++
        String.mk (fmt2c 12) ++ ":" ++ String.mk (fmt2c 5) ++ " UTC" ++ "\n" ++
      "Users: " ++ human_int 1000 ++ (" (↑" ++ human_int 50 ++ ")") ++ "\n" ++
      "Posts: " ++ human_int 2000 ++ (" (↑" ++ human_int 100 ++ ")") ++ "\n" ++
      "Likes: " ++ human_int 500 ++ (" (↑" ++ human_int 20 ++ ")") ++ "\n" ++
      "Growth rate: " ++ human_rate (5 / 2) ++ "/s" ++
        (" (Δ" ++ human_rate (2 / 5) ++ "/s)") := by
  refine ⟨rfl, ?_⟩
  have h := claim_C5_report_format ⟨⟨2024, 1, 3⟩, 12, 5⟩
    [("total_users", JVal.jint 1000), ("total_posts", JVal.jint 2000),
      ("total_likes", JVal.jint 500),
      ("users_growth_rate_per_second", JVal.jfloat (5 / 2))]
    (some 50) (some 100) (some 20) (some (2 / 5)) 1000 2000 500 (5 / 2)
    rfl rfl rfl rfl
  rw [h]

set_option maxRecDepth 4000 in
example :
    compose_post_text ⟨⟨2024, 1, 3⟩, 12, 5⟩
        [("total_users", JVal.jint 1000), ("total_posts", JVal.jint 2000),
          ("total_likes", JVal.jint 500),
          ("users_growth_rate_per_second", JVal.jfloat (5 / 2))]
        (some 50, some 100, some 20, some (2 / 5)) =
      "Bluesky Daily Stats — 2024-01-03 12:05 UTC\nUsers: 1,000 (↑50)\nPosts: 2,000 (↑100)\nLikes: 500 (↑20)\nGrowth rate: 2.5000/s (Δ0.4000/s)" := by
  with_unfolding_all rfl

set_option maxRecDepth 4000 in
example :
    compose_post_text ⟨⟨2024, 1, 3⟩, 12, 5⟩
        [("total_users", JVal.jint 1000), ("total_posts", JVal.jint 2000),
          ("total_likes", JVal.jint 500),
          ("users_growth_rate_per_second", JVal.jfloat (5 / 2))]
        (none, none, none, none) =
      "Bluesky Daily Stats — 2024-01-03 12:05 UTC\nUsers: 1,000\nPosts: 2,000\nLikes: 500\nGrowth rate: 2.5000/s" := by
  with_unfolding_all rfl

/-! ### Claims C7 and C8: whole-run error handling -/

/-- C8: a raising fetch (transport failure, HTTP error status such as
500, or validation failure) terminates the run with exit code 1, nothing
on stdout, and the archive tree exactly as before the run. -/
theorem claim_C8_fetch_failure_atomicity (w : World) (e : MainErr)
    (hf : fetch_stats w = Except.error e) :
    (run w).exitCode = 1 ∧ (run w).fs = w.fs0 ∧ (run w).stdout = [] := by
  unfold run
  rw [hf]
  exact ⟨rfl, rfl, rfl⟩

/-- C8 witness: an HTTP 500 response, with a pre-existing archive file. -/
theorem claim_C8_fetch_failure_atomicity_witness :
    fetch_stats
      (⟨⟨⟨2024, 1, 3⟩, 12, 0⟩, FetchOutcome.response 500 [],
        [(["data", "2024", "01", "2024-01-01.json"], "old")],
        ⟨some "h", some "p"⟩, Except.ok ()⟩ : World) =
      Except.error (MainErr.httpError 500) ∧
    (run ⟨⟨⟨2024, 1, 3⟩, 12, 0⟩, FetchOutcome.response 500 [],
        [(["data", "2024", "01", "2024-01-01.json"], "old")],
        ⟨some "h", some "p"⟩, Except.ok ()⟩).exitCode = 1 ∧
    (run ⟨⟨⟨2024, 1, 3⟩, 12, 0⟩, FetchOutcome.response 500 [],
        [(["data", "2024", "01", "2024-01-01.json"], "old")],
        ⟨some "h", some "p"⟩, Except.ok ()⟩).fs =
      [(["data", "2024", "01", "2024-01-01.json"], "old")] ∧
    (run ⟨⟨⟨2024, 1, 3⟩, 12, 0⟩, FetchOutcome.response 500 [],
        [(["data", "2024", "01", "2024-01-01.json"], "old")],
        ⟨some "h", some "p"⟩, Except.ok ()⟩).stdout = [] := by
  refine ⟨rfl, ?_⟩
  have h := claim_C8_fetch_failure_atomicity
    ⟨⟨⟨2024, 1, 3⟩, 12, 0⟩, FetchOutcome.response 500 [],
      [(["data", "2024", "01", "2024-01-01.json"], "old")],
      ⟨some "h", some "p"⟩, Except.ok ()⟩
    (MainErr.httpError 500) rfl
  exact ⟨h.1, h.2.1, h.2.2⟩

/-- C7: when fetch, archive and the previous-snapshot load succeed, any
failure of the publish step is caught — exit code 0, the report already
printed to stdout, the failure demoted to a stderr warning; and missing
(or empty) credentials fail the step with the dedicated message before
the posting client is ever invoked. -/
theorem claim_C7_publish_failures_nonfatal (w : World) (stats : JDict)
    (prev : Option JDict)
    (hf : fetch_stats w = Except.ok stats)
    (hload : loadPrevStats (archiveFS w stats)
        (find_previous_snapshot (archiveFS w stats) w.now) = Except.ok prev) :
    (∀ m, (post_to_bluesky w.env w.publish).2 = Except.error m →
      (run w).exitCode = 0 ∧
      (run w).stdout =
        [compose_post_text w.now stats (compute_deltas stats prev)] ∧
      (run w).stderr = ["Warning: Failed to post to Bluesky: " ++ m]) ∧
    ((strFalsy w.env.handle || strFalsy w.env.password) = true →
      post_to_bluesky w.env w.publish =
        (false, Except.error
          "Missing BSKY_HANDLE or BSKY_APP_PASSWORD environment variables") ∧
      (run w).postAttempted = false ∧ (run w).exitCode = 0) := by
  have hrun : run w =
      runPublish (compose_post_text w.now stats (compute_deltas stats prev))
        (archiveFS w stats) (post_to_bluesky w.env w.publish) := by
    unfold run
    rw [hf, runWith, hload, runPost]
  constructor
  · intro m hm
    have hpair := (@Prod.mk.eta _ _ (post_to_bluesky w.env w.publish)).symm
    rw [hm] at hpair
    rw [hrun, hpair]
    exact ⟨rfl, rfl, rfl⟩
  · intro hcred
    have hpost : post_to_bluesky w.env w.publish =
        (false, Except.error
          "Missing BSKY_HANDLE or BSKY_APP_PASSWORD environment variables") := by
      unfold post_to_bluesky
      rw [if_pos hcred]
    refine ⟨hpost, ?_, ?_⟩
    · rw [hrun, hpost]
      rfl
    · rw [hrun, hpost]
      rfl

/-- C7 witness: successful fetch of a full snapshot, empty archive, both
credentials unset. -/
theorem claim_C7_publish_failures_nonfatal_witness :
    fetch_stats
      (⟨⟨⟨2024, 1, 3⟩, 12, 0⟩, FetchOutcome.response 200
          [("total_users", JVal.jint 1000), ("total_posts", JVal.jint 2000),
            ("total_follows", JVal.jint 3000), ("total_likes", JVal.jint 500),
            ("users_growth_rate_per_second", JVal.jfloat 1),
            ("last_update_time", JVal.jstr "t"),
            ("next_update_time", JVal.jstr "u")],
        [], ⟨none, none⟩, Except.ok ()⟩ : World) =
      Except.ok
        [("total_users", JVal.jint 1000), ("total_posts", JVal.jint 2000),
          ("total_follows", JVal.jint 3000), ("total_likes", JVal.jint 500),
          ("users_growth_rate_per_second", JVal.jfloat 1),
          ("last_update_time", JVal.jstr "t"),
          ("next_update_time", JVal.jstr "u")] ∧
    ((strFalsy (none : Option String) || strFalsy (none : Option String)) = true →
      post_to_bluesky ⟨none, none⟩ (Except.ok ()) =
        (false, Except.error
          "Missing BSKY_HANDLE or BSKY_APP_PASSWORD environment variables") ∧
      (run ⟨⟨⟨2024, 1, 3⟩, 12, 0⟩, FetchOutcome.response 200
          [("total_users", JVal.jint 1000), ("total_posts", JVal.jint 2000),
            ("total_follows", JVal.jint 3000), ("total_likes", JVal.jint 500),
            ("users_growth_rate_per_second", JVal.jfloat 1),
            ("last_update_time", JVal.jstr "t"),
            ("next_update_time", JVal.jstr "u")],
        [], ⟨none, none⟩, Except.ok ()⟩).postAttempted = false ∧
      (run ⟨⟨⟨2024, 1, 3⟩, 12, 0⟩, FetchOutcome.response 200
          [("total_users", JVal.jint 1000), ("total_posts", JVal.jint 2000),
            ("total_follows", JVal.jint 3000), ("total_likes", JVal.jint 500),
            ("users_growth_rate_per_second", JVal.jfloat 1),
            ("last_update_time", JVal.jstr "t"),
            ("next_update_time", JVal.jstr "u")],
        [], ⟨none, none⟩, Except.ok ()⟩).exitCode = 0) := by
  refine ⟨rfl, ?_⟩
  have h := claim_C7_publish_failures_nonfatal
    ⟨⟨⟨2024, 1, 3⟩, 12, 0⟩, FetchOutcome.response 200
        [("total_users", JVal.jint 1000), ("total_posts", JVal.jint 2000),
          ("total_follows", JVal.jint 3000), ("total_likes", JVal.jint 500),
          ("users_growth_rate_per_second", JVal.jfloat 1),
          ("last_update_time", JVal.jstr "t"),
          ("next_update_time", JVal.jstr "u")],
      [], ⟨none, none⟩, Except.ok ()⟩
    [("total_users", JVal.jint 1000), ("total_posts", JVal.jint 2000),
      ("total_follows", JVal.jint 3000), ("total_likes", JVal.jint 500),
      ("users_growth_rate_per_second", JVal.jfloat 1),
      ("last_update_time", JVal.jstr "t"),
      ("next_update_time", JVal.jstr "u")]
    none rfl rfl
  exact h.2

/-! ### Claim C6 groundwork: write idempotence and dump properties -/

lemma fsWrite_fresh {fs : FSys} {p : FPath} {c : String}
    (hnot : ∀ e ∈ fs, ¬ e.1 = p) : fsWrite fs p c = fs ++ [(p, c)] := by
  unfold fsWrite
  rw [if_neg]
  rw [List.any_eq_true]
  rintro ⟨e, he, heq⟩
  exact hnot e he (of_decide_eq_true heq)

lemma fsWrite_overwrite {fs : FSys} {p : FPath} {c1 c2 : String}
    (hnot : ∀ e ∈ fs, ¬ e.1 = p) :
    fsWrite (fs ++ [(p, c1)]) p c2 = fs ++ [(p, c2)] := by
  unfold fsWrite
  rw [if_pos]
  · rw [List.map_append]
    congr 1
    · have hcongr : ∀ e ∈ fs,
          (if e.1 = p then (p, c2) else e) = id e := fun e he => by
        rw [if_neg (hnot e he)]
        rfl
      rw [List.map_congr_left hcongr, List.map_id]
    · simp
  · rw [List.any_eq_true]
    exact ⟨(p, c1), by simp, by simp⟩

lemma fsLookup_append_miss {fs : FSys} {p : FPath}
    (hnot : ∀ e ∈ fs, ¬ e.1 = p) :
    ∀ l, fsLookup (fs ++ l) p = fsLookup l p := by
  induction fs with
  | nil => intro l; rfl
  | cons e rest ih =>
    intro l
    rw [List.cons_append, fsLookup, if_neg (hnot e (by simp))]
    exact ih (fun x hx => hnot x (by simp [hx])) l

lemma dump_trailing_newline (stats : JDict) :
    (dumpDict stats ++ ['\n']).getLast? = some '\n' := by
  rw [List.getLast?_append]
  rfl

lemma escapeChar_nonascii {c : Char} (h : 128 ≤ c.toNat) :
    escapeChar c = [c] := by
  have hne : ∀ d : Char, d.toNat < 128 → ¬ c = d := by
    intro d hd he
    rw [he] at h
    omega
  unfold escapeChar
  rw [if_neg (hne '"' (by decide)), if_neg (hne '\\' (by decide)),
    if_neg (hne '\n' (by decide)), if_neg (hne '\t' (by decide)),
    if_neg (hne '\r' (by decide)), if_neg (by omega), if_neg (by omega),
    if_neg (by omega)]

lemma mem_dumpStr_of_nonascii {c : Char} {s : String} (hc : 128 ≤ c.toNat)
    (hmem : c ∈ s.toList) : c ∈ dumpStr s := by
  unfold dumpStr
  refine List.mem_cons_of_mem _ (List.mem_append_left _ ?_)
  rw [List.mem_flatten]
  exact ⟨escapeChar c, List.mem_map_of_mem _ hmem,
    by rw [escapeChar_nonascii hc]; simp⟩

lemma joinSepC_cons2 (sep a b : List Char) (bs : List (List Char)) :
    joinSepC sep (a :: b :: bs) = a ++ sep ++ joinSepC sep (b :: bs) := rfl

lemma dumpDict_cons (kv : String × JVal) (rest : JDict) :
    dumpDict (kv :: rest) =
      '\x7b' :: '\n' :: (joinSepC [',', '\n'] ((kv :: rest).map itemChars) ++
        ['\n', '\x7d']) := rfl

lemma mem_joinSepC {sep : List Char} {x : Char} :
    ∀ {ls : List (List Char)} {l : List Char}, l ∈ ls → x ∈ l →
      x ∈ joinSepC sep ls := by
  intro ls
  induction ls with
  | nil => intro l h; exact absurd h (by simp)
  | cons a as ih =>
    intro l hl hx
    cases as with
    | nil =>
      rw [List.mem_singleton] at hl
      subst hl
      exact hx
    | cons b bs =>
      rw [joinSepC_cons2]
      rcases List.mem_cons.mp hl with rfl | hl2
      · exact List.mem_append_left _ (List.mem_append_left _ hx)
      · exact List.mem_append_right _ (ih hl2 hx)

lemma dump_preserves_nonascii {stats : JDict} {c : Char} (hc : 128 ≤ c.toNat) :
    ∀ kv ∈ stats, (c ∈ kv.1.toList ∨ ∃ s, kv.2 = JVal.jstr s ∧ c ∈ s.toList) →
      c ∈ dumpDict stats := by
  intro kv hkv hcmem
  have hitem : c ∈ itemChars kv := by
    unfold itemChars
    rcases hcmem with hkey | ⟨s, hval, hs⟩
    · exact List.mem_cons_of_mem _ (List.mem_cons_of_mem _
        (List.mem_append_left _ (mem_dumpStr_of_nonascii hc hkey)))
    · refine List.mem_cons_of_mem _ (List.mem_cons_of_mem _
        (List.mem_append_right _ (List.mem_cons_of_mem _
          (List.mem_cons_of_mem _ ?_))))
      rw [hval]
      exact mem_dumpStr_of_nonascii hc hs
  cases stats with
  | nil => exact absurd hkv (by simp)
  | cons kv0 rest =>
    rw [dumpDict_cons]
    refine List.mem_cons_of_mem _ (List.mem_cons_of_mem _
      (List.mem_append_left _ ?_))
    exact mem_joinSepC (List.mem_map_of_mem itemChars hkv) hitem

lemma isHexCh_hexDigitCh (k : Nat) : isHexCh (hexDigitCh k) = true := by
  unfold hexDigitCh
  split_ifs with h1 h2
  · interval_cases k <;> decide
  · interval_cases k <;> decide
  · decide

lemma pStrBody_escq (l : List Char) :
    pStrBody ('\\' :: '"' :: l) =
      (pStrBody l).map (fun r => ('"' :: r.1, r.2)) := rfl

lemma pStrBody_escbs (l : List Char) :
    pStrBody ('\\' :: '\\' :: l) =
      (pStrBody l).map (fun r => ('\\' :: r.1, r.2)) := rfl

lemma pStrBody_escn (l : List Char) :
    pStrBody ('\\' :: 'n' :: l) =
      (pStrBody l).map (fun r => ('\n' :: r.1, r.2)) := rfl

lemma pStrBody_esct (l : List Char) :
    pStrBody ('\\' :: 't' :: l) =
      (pStrBody l).map (fun r => ('\t' :: r.1, r.2)) := rfl

lemma pStrBody_escr (l : List Char) :
    pStrBody ('\\' :: 'r' :: l) =
      (pStrBody l).map (fun r => ('\r' :: r.1, r.2)) := rfl

lemma pStrBody_escb (l : List Char) :
    pStrBody ('\\' :: 'b' :: l) =
      (pStrBody l).map (fun r => (Char.ofNat 8 :: r.1, r.2)) := rfl

lemma pStrBody_escf (l : List Char) :
    pStrBody ('\\' :: 'f' :: l) =
      (pStrBody l).map (fun r => (Char.ofNat 12 :: r.1, r.2)) := rfl

lemma pStrBody_escu (a b : Char) (l : List Char) (ha : isHexCh a = true)
    (hb : isHexCh b = true) :
    pStrBody ('\\' :: 'u' :: '0' :: '0' :: a :: b :: l) =
      (pStrBody l).map (fun r =>
        (Char.ofNat (((hexVal '0' * 16 + hexVal '0') * 16 + hexVal a) * 16 +
          hexVal b) :: r.1, r.2)) := by
  show (if (isHexCh '0' && isHexCh '0' && isHexCh a && isHexCh b) = true then
      (pStrBody l).map (fun r =>
        (Char.ofNat (((hexVal '0' * 16 + hexVal '0') * 16 + hexVal a) * 16 +
          hexVal b) :: r.1, r.2))
    else none) = _
  rw [ha, hb, if_pos (by decide)]

lemma pStrBody_lit {c : Char} (l : List Char) (h1 : ¬ c = '"')
    (h2 : ¬ c = '\\') (h3 : ¬ c.toNat < 32) :
    pStrBody (c :: l) = (pStrBody l).map (fun r => (c :: r.1, r.2)) := by
  rw [pStrBody.eq_def]
  split
  · rename_i a b cc d l2 heq
    exfalso
    injection heq with hc _
    exact h2 hc
  · rename_i hguard heq
    exfalso
    injection heq with hc _
    exact h2 hc
  · rename_i c2 l2 heq
    injection heq with hc hl
    subst hc
    subst hl
    rw [if_neg h1, if_neg h3]
  · rename_i heq
    exact absurd heq (List.cons_ne_nil c l)

lemma pStrBody_dump :
    ∀ (cs : List Char) (rest : List Char),
      ∃ out, pStrBody ((cs.map escapeChar).flatten ++ '"' :: rest) =
        some (out, rest) := by
  intro cs
  induction cs with
  | nil =>
    intro rest
    exact ⟨[], rfl⟩
  | cons c cs ih =>
    intro rest
    rw [List.map_cons, List.flatten_cons, List.append_assoc]
    obtain ⟨out, hout⟩ := ih rest
    set tail := (cs.map escapeChar).flatten ++ '"' :: rest with htail
    by_cases h1 : c = '"'
    · subst h1
      exact ⟨'"' :: out, by
        show pStrBody ('\\' :: '"' :: tail) = _
        rw [pStrBody_escq, hout, Option.map_some']⟩
    by_cases h2 : c = '\\'
    · subst h2
      exact ⟨'\\' :: out, by
        show pStrBody ('\\' :: '\\' :: tail) = _
        rw [pStrBody_escbs, hout, Option.map_some']⟩
    by_cases h3 : c = '\n'
    · subst h3
      exact ⟨'\n' :: out, by
        show pStrBody ('\\' :: 'n' :: tail) = _
        rw [pStrBody_escn, hout, Option.map_some']⟩
    by_cases h4 : c = '\t'
    · subst h4
      exact ⟨'\t' :: out, by
        show pStrBody ('\\' :: 't' :: tail) = _
        rw [pStrBody_esct, hout, Option.map_some']⟩
    by_cases h5 : c = '\r'
    · subst h5
      exact ⟨'\r' :: out, by
        show pStrBody ('\\' :: 'r' :: tail) = _
        rw [pStrBody_escr, hout, Option.map_some']⟩
    by_cases h6 : c.toNat = 8
    · refine ⟨Char.ofNat 8 :: out, ?_⟩
      have hesc : escapeChar c = ['\\', 'b'] := by
        unfold escapeChar
        rw [if_neg h1, if_neg h2, if_neg h3, if_neg h4, if_neg h5, if_pos h6]
      rw [hesc]
      rw [List.cons_append, List.singleton_append, pStrBody_escb, hout,
        Option.map_some']
    by_cases h7 : c.toNat = 12
    · refine ⟨Char.ofNat 12 :: out, ?_⟩
      have hesc : escapeChar c = ['\\', 'f'] := by
        unfold escapeChar
        rw [if_neg h1, if_neg h2, if_neg h3, if_neg h4, if_neg h5, if_neg h6,
          if_pos h7]
      rw [hesc]
      rw [List.cons_append, List.singleton_append, pStrBody_escf, hout,
        Option.map_some']
    by_cases h8 : c.toNat < 32
    · refine ⟨Char.ofNat
        (((hexVal '0' * 16 + hexVal '0') * 16 + hexVal (hexDigitCh (c.toNat / 16))) *
          16 + hexVal (hexDigitCh (c.toNat % 16))) :: out, ?_⟩
      have hesc : escapeChar c = ['\\', 'u', '0', '0', hexDigitCh (c.toNat / 16),
          hexDigitCh (c.toNat % 16)] := by
        unfold escapeChar
        rw [if_neg h1, if_neg h2, if_neg h3, if_neg h4, if_neg h5, if_neg h6,
          if_neg h7, if_pos h8]
      rw [hesc]
      show pStrBody ('\\' :: 'u' :: '0' :: '0' :: hexDigitCh (c.toNat / 16) ::
        hexDigitCh (c.toNat % 16) :: tail) = _
      rw [pStrBody_escu _ _ tail (isHexCh_hexDigitCh _) (isHexCh_hexDigitCh _),
        hout, Option.map_some']
    · refine ⟨c :: out, ?_⟩
      have hesc : escapeChar c = [c] := by
        unfold escapeChar
        rw [if_neg h1, if_neg h2, if_neg h3, if_neg h4, if_neg h5, if_neg h6,
          if_neg h7, if_neg h8]
      rw [hesc]
      rw [List.singleton_append, pStrBody_lit tail h1 h2 h8, hout,
        Option.map_some']

/-! ### Digit-list and number-parsing lemmas for the dump -/

lemma natDigitsGo_ne_nil : ∀ (fuel n : Nat), natDigitsGo fuel n ≠ [] := by
  intro fuel
  induction fuel with
  | zero => intro n; simp [natDigitsGo]
  | succ f ih =>
    intro n
    rw [natDigitsGo]
    split_ifs
    · simp
    · simp

lemma natDigitsChars_ne_nil (n : Nat) : natDigitsChars n ≠ [] := by
  unfold natDigitsChars natDigits
  simp only [ne_eq, List.map_eq_nil_iff]
  exact natDigitsGo_ne_nil n n

lemma natDigitsChars_digits {n : Nat} : ∀ c ∈ natDigitsChars n,
    isDigitCh c = true := by
  intro c hc
  unfold natDigitsChars at hc
  rw [List.mem_map] at hc
  obtain ⟨k, _, rfl⟩ := hc
  exact isDigitCh_digitCh k

lemma bool_ne_of_eq_ne {c d : Char} {f : Char → Bool} (h : f c = true)
    (hd : f d = false) : ¬ c = d := by
  intro he
  rw [he, hd] at h
  exact Bool.false_ne_true h

lemma isWsCh_digitCh (k : Nat) : isWsCh (digitCh k) = false := by
  by_cases h : k < 10
  · interval_cases k <;> decide
  · have : digitCh k = '0' := by
      unfold digitCh
      rw [List.getD_eq_default]
      simp only [List.length_cons, List.length_nil]
      omega
    rw [this]
    decide

lemma takeDigits_exact :
    ∀ (ds rest : List Char), (∀ c ∈ ds, isDigitCh c = true) →
      (∀ c t, rest = c :: t → isDigitCh c = false) →
      takeDigits (ds ++ rest) = (ds, rest) := by
  intro ds
  induction ds with
  | nil =>
    intro rest _ hrest
    cases rest with
    | nil => rfl
    | cons c t =>
      rw [List.nil_append, takeDigits,
        if_neg (by rw [hrest c t rfl]; exact Bool.false_ne_true)]
  | cons d ds ih =>
    intro rest hds hrest
    rw [List.cons_append, takeDigits, if_pos (hds d (by simp)),
      ih rest (fun c hc => hds c (by simp [hc])) hrest]

/-- Boundary condition after a serialized number: the next character (if
any) is neither a digit nor a dot. -/
def numBound (rest : List Char) : Prop :=
  ∀ c t, rest = c :: t → isDigitCh c = false ∧ ¬ c = '.'

lemma pNumberNat_int {ds rest : List Char} (hne : ds ≠ [])
    (hds : ∀ c ∈ ds, isDigitCh c = true) (hrest : numBound rest) :
    pNumberNat (ds ++ rest) = some (JVal.jint (digitsVal ds : ℤ), rest) := by
  unfold pNumberNat
  rw [takeDigits_exact ds rest hds (fun c t h => (hrest c t h).1)]
  rw [if_neg (by simp [List.isEmpty_iff, hne])]
  cases rest with
  | nil => rfl
  | cons c t =>
    rw [pNumFrac, if_neg (fun he => (hrest c t rfl).2 he)]

lemma pNumberNat_float {ds fs rest : List Char} (hdne : ds ≠ [])
    (hfne : fs ≠ []) (hds : ∀ c ∈ ds, isDigitCh c = true)
    (hfs : ∀ c ∈ fs, isDigitCh c = true) (hrest : numBound rest) :
    ∃ q : ℚ, pNumberNat (ds ++ '.' :: (fs ++ rest)) =
      some (JVal.jfloat q, rest) := by
  unfold pNumberNat
  rw [takeDigits_exact ds ('.' :: (fs ++ rest)) hds
    (fun c t h => by rw [List.cons.injEq] at h; rw [← h.1]; rfl)]
  rw [if_neg (by simp [List.isEmpty_iff, hdne])]
  rw [pNumFrac, if_pos rfl]
  rw [takeDigits_exact fs rest hfs (fun c t h => (hrest c t h).1)]
  rw [if_neg (by simp [List.isEmpty_iff, hfne])]
  exact ⟨_, rfl⟩

lemma natDigitsChars_head (n : Nat) :
    ∃ k t, natDigitsChars n = digitCh k :: t := by
  unfold natDigitsChars natDigits
  cases hgo : natDigitsGo n n with
  | nil => exact absurd hgo (natDigitsGo_ne_nil _ _)
  | cons k t => exact ⟨k, t.map digitCh, by rw [List.map_cons]⟩

lemma pValPrim_digits_int {ds rest : List Char} {k : Nat} {t : List Char}
    (hk : ds = digitCh k :: t) (hds : ∀ c ∈ ds, isDigitCh c = true)
    (hrest : numBound rest) :
    ∃ out, pValPrim (ds ++ rest) = some (out, rest) := by
  subst hk
  rw [List.cons_append, pValPrim,
    if_neg (bool_ne_of_eq_ne (isDigitCh_digitCh k) (by decide)),
    pNumber, if_neg (bool_ne_of_eq_ne (isDigitCh_digitCh k) (by decide)),
    ← List.cons_append, pNumberNat_int (by simp) hds hrest]
  exact ⟨_, rfl⟩

lemma pValPrim_digits_float {ds fs rest : List Char} {k : Nat} {t : List Char}
    (hk : ds = digitCh k :: t) (hds : ∀ c ∈ ds, isDigitCh c = true)
    (hfne : fs ≠ []) (hfs : ∀ c ∈ fs, isDigitCh c = true)
    (hrest : numBound rest) :
    ∃ out, pValPrim ((ds ++ '.' :: fs) ++ rest) = some (out, rest) := by
  subst hk
  rw [List.append_assoc, List.cons_append, List.cons_append, pValPrim,
    if_neg (bool_ne_of_eq_ne (isDigitCh_digitCh k) (by decide)),
    pNumber, if_neg (bool_ne_of_eq_ne (isDigitCh_digitCh k) (by decide))]
  obtain ⟨q, hq⟩ := @pNumberNat_float (digitCh k :: t) fs rest
    (by simp) hfne hds hfs hrest
  rw [List.cons_append] at hq
  rw [hq]
  exact ⟨_, rfl⟩

lemma pValPrim_dump (v : JVal) (rest : List Char) (hrest : numBound rest) :
    ∃ out, pValPrim (dumpVal v ++ rest) = some (out, rest) := by
  cases v with
  | jstr s =>
    show ∃ out, pValPrim ('"' ::
      (((s.toList.map escapeChar).flatten ++ ['"']) ++ rest)) = some (out, rest)
    rw [pValPrim, if_pos rfl, List.append_assoc, List.singleton_append]
    obtain ⟨out, hout⟩ := pStrBody_dump s.toList rest
    rw [hout]
    exact ⟨_, rfl⟩
  | jint z =>
    obtain ⟨k, t, hk⟩ := natDigitsChars_head z.natAbs
    show ∃ out, pValPrim (intChars z ++ rest) = some (out, rest)
    unfold intChars
    by_cases hz : z < 0
    · rw [if_pos hz, hk]
      simp only [List.cons_append, List.nil_append]
      rw [pValPrim, if_neg (by decide), pNumber, if_pos rfl,
        ← List.cons_append,
        @pNumberNat_int (digitCh k :: t) rest (by simp)
          (hk ▸ natDigitsChars_digits) hrest]
      exact ⟨_, rfl⟩
    · rw [if_neg hz, List.nil_append]
      exact pValPrim_digits_int hk (hk ▸ natDigitsChars_digits) hrest
  | jfloat q =>
    show ∃ out, pValPrim (floatChars q ++ rest) = some (out, rest)
    unfold floatChars
    cases hfl : fracLenAux (if q < 0 then -q else q) 1 1100 with
    | none =>
      rw [floatCharsAux]
      by_cases hq : q < 0
      · rw [if_pos hq]
        show ∃ out, pValPrim ('-' :: ('0' :: '.' :: '0' :: rest)) =
          some (out, rest)
        rw [pValPrim, if_neg (by decide), pNumber, if_pos rfl]
        have h00 : ('0' : Char) :: '.' :: '0' :: rest =
            ['0'] ++ '.' :: (['0'] ++ rest) := rfl
        rw [h00, pNumberNat_float (by simp) (by simp) (by decide)
          (by decide) hrest |>.choose_spec]
        exact ⟨_, rfl⟩
      · rw [if_neg hq, List.nil_append]
        have h00 : (['0', '.', '0'] : List Char) ++ rest =
            (['0'] ++ '.' :: ['0']) ++ rest := rfl
        rw [h00]
        exact @pValPrim_digits_float ['0'] ['0'] rest 0 [] rfl (by decide)
          (by simp) (by decide) hrest
    | some k =>
      rw [floatCharsAux]
      unfold floatDigitsChars
      obtain ⟨d, t, hd⟩ := natDigitsChars_head
        (((if q < 0 then -q else q) * (10 : ℚ) ^ k).num.toNat / 10 ^ k)
      have hfs_ne : List.replicate
          (k - (natDigitsChars
            (((if q < 0 then -q else q) * (10 : ℚ) ^ k).num.toNat % 10 ^ k)).length)
          '0' ++ natDigitsChars
            (((if q < 0 then -q else q) * (10 : ℚ) ^ k).num.toNat % 10 ^ k) ≠ [] := by
        simp only [ne_eq, List.append_eq_nil, not_and]
        intro _
        exact natDigitsChars_ne_nil _
      have hfs_dig : ∀ c ∈ List.replicate
          (k - (natDigitsChars
            (((if q < 0 then -q else q) * (10 : ℚ) ^ k).num.toNat % 10 ^ k)).length)
          '0' ++ natDigitsChars
            (((if q < 0 then -q else q) * (10 : ℚ) ^ k).num.toNat % 10 ^ k),
          isDigitCh c = true := by
        intro c hc
        rw [List.mem_append] at hc
        rcases hc with hc | hc
        · rw [List.eq_of_mem_replicate hc]
          decide
        · exact natDigitsChars_digits c hc
      by_cases hq : q < 0
      · rw [if_pos hq]
        simp only [List.cons_append, List.nil_append, List.append_assoc]
        rw [pValPrim, if_neg (by decide), pNumber, if_pos rfl]
        obtain ⟨q2, hq2⟩ := @pNumberNat_float
          (natDigitsChars
            (((if q < 0 then -q else q) * (10 : ℚ) ^ k).num.toNat / 10 ^ k))
          _ rest
          (natDigitsChars_ne_nil _) hfs_ne natDigitsChars_digits hfs_dig hrest
        rw [List.append_assoc] at hq2
        rw [hq2]
        exact ⟨_, rfl⟩
      · rw [if_neg hq, List.nil_append]
        exact pValPrim_digits_float hd (hd ▸ natDigitsChars_digits) hfs_ne
          hfs_dig hrest

/-! ### Whitespace and member-list lemmas -/

lemma skipWs_not_ws {c : Char} (l : List Char) (h : isWsCh c = false) :
    skipWs (c :: l) = c :: l := by
  rw [skipWs, if_neg (by rw [h]; exact Bool.false_ne_true)]

lemma skipWs_ws_cons {c : Char} (l : List Char) (h : isWsCh c = true) :
    skipWs (c :: l) = skipWs l := by
  rw [skipWs, if_pos h]

lemma dumpVal_head (v : JVal) :
    ∃ c t, dumpVal v = c :: t ∧ isWsCh c = false := by
  cases v with
  | jstr s => exact ⟨'"', _, rfl, by decide⟩
  | jint z =>
    obtain ⟨k, t, hk⟩ := natDigitsChars_head z.natAbs
    show ∃ c t, intChars z = c :: t ∧ isWsCh c = false
    unfold intChars
    by_cases hz : z < 0
    · rw [if_pos hz]
      exact ⟨'-', _, rfl, by decide⟩
    · rw [if_neg hz, List.nil_append, hk]
      exact ⟨digitCh k, t, rfl, isWsCh_digitCh k⟩
  | jfloat q =>
    show ∃ c t, floatChars q = c :: t ∧ isWsCh c = false
    unfold floatChars
    by_cases hq : q < 0
    · simp only [if_pos hq]
      exact ⟨'-', _, rfl, by decide⟩
    · simp only [if_neg hq, List.nil_append]
      cases hfl : fracLenAux q 1 1100 with
      | none =>
        rw [floatCharsAux]
        exact ⟨'0', _, rfl, by decide⟩
      | some k =>
        rw [floatCharsAux]
        unfold floatDigitsChars
        obtain ⟨d, t, hd⟩ := natDigitsChars_head ((q * (10 : ℚ) ^ k).num.toNat / 10 ^ k)
        rw [hd, List.cons_append]
        exact ⟨digitCh d, _, rfl, isWsCh_digitCh d⟩

lemma skipWs_dumpVal_append (v : JVal) (tail : List Char) :
    skipWs (dumpVal v ++ tail) = dumpVal v ++ tail := by
  obtain ⟨c, t, hct, hws⟩ := dumpVal_head v
  rw [hct, List.cons_append, skipWs_not_ws _ hws]

lemma joinSepC_single (sep x : List Char) : joinSepC sep [x] = x := rfl

lemma joinSepC_cons_ex (sep x : List Char) (xs : List (List Char)) :
    ∃ t, joinSepC sep (x :: xs) = x ++ t := by
  cases xs with
  | nil => exact ⟨[], by rw [joinSepC_single, List.append_nil]⟩
  | cons b bs =>
    exact ⟨sep ++ joinSepC sep (b :: bs),
      by rw [joinSepC_cons2, List.append_assoc]⟩

lemma joinSepC_length_ge (sep : List Char) :
    ∀ ls : List (List Char), (∀ x ∈ ls, x ≠ []) →
      ls.length ≤ (joinSepC sep ls).length := by
  intro ls
  induction ls with
  | nil => intro _; simp [joinSepC]
  | cons x xs ih =>
    intro hne
    cases xs with
    | nil =>
      rw [joinSepC_single]
      have := hne x (by simp)
      cases x with
      | nil => exact absurd rfl this
      | cons c t => simp
    | cons b bs =>
      rw [joinSepC_cons2]
      have hx := hne x (by simp)
      have hih := ih (fun z hz => hne z (by simp [hz]))
      rw [List.length_append, List.length_append]
      have hx1 : 1 ≤ x.length := by
        cases x with
        | nil => exact absurd rfl hx
        | cons c t => simp
      simp only [List.length_cons] at hih ⊢
      omega

lemma itemChars_ne_nil (kv : String × JVal) : itemChars kv ≠ [] := by
  unfold itemChars
  simp

lemma pMembers_item (pm : List Char → Option (JDict × List Char))
    (kv : String × JVal) (suf : List Char) (hnum : numBound suf) :
    ∃ kv2, pMemStart pm (skipWs (itemChars kv ++ suf)) =
      pMemTailGo pm kv2 (skipWs suf) := by
  have hshape : itemChars kv ++ suf =
      ' ' :: ' ' :: '"' :: ((kv.1.toList.map escapeChar).flatten ++
        '"' :: ':' :: ' ' :: (dumpVal kv.2 ++ suf)) := by
    simp [itemChars, dumpStr, List.append_assoc]
  rw [hshape, skipWs_ws_cons _ (by decide), skipWs_ws_cons _ (by decide),
    skipWs_not_ws _ (by decide)]
  rw [pMemStart, if_pos rfl]
  obtain ⟨out, hout⟩ :=
    pStrBody_dump kv.1.toList (':' :: ' ' :: (dumpVal kv.2 ++ suf))
  rw [hout, pMemKey, pMemColon, skipWs_not_ws _ (by decide), pMemColonGo,
    if_pos rfl, skipWs_ws_cons _ (by decide), skipWs_dumpVal_append]
  obtain ⟨out2, hout2⟩ := pValPrim_dump kv.2 suf hnum
  rw [hout2, pMemVal, pMemTail]
  exact ⟨_, rfl⟩

lemma pMembers_succ_ws {c : Char} (f : Nat) (l : List Char)
    (h : isWsCh c = true) :
    pMembers (f + 1) (c :: l) = pMembers (f + 1) l := by
  rw [pMembers, pMembers, skipWs_ws_cons _ h]

lemma pMembers_dump :
    ∀ (items : JDict) (fuel : Nat) (rest : List Char), items ≠ [] →
      items.length ≤ fuel →
      ∃ d, pMembers fuel
        (joinSepC [',', '\n'] (items.map itemChars) ++
          '\n' :: '\x7d' :: rest) = some (d, '\x7d' :: rest) := by
  intro items
  induction items with
  | nil => intro fuel rest h _; exact absurd rfl h
  | cons kv items ih =>
    intro fuel rest _ hfuel
    cases fuel with
    | zero => simp at hfuel
    | succ f =>
      rw [pMembers]
      cases items with
      | nil =>
        rw [List.map_cons, List.map_nil, joinSepC_single]
        obtain ⟨kv2, hkv2⟩ := pMembers_item (pMembers f) kv
          ('\n' :: '\x7d' :: rest)
          (by
            intro c t h
            rw [List.cons.injEq] at h
            rw [← h.1]
            exact ⟨by decide, by decide⟩)
        rw [hkv2, skipWs_ws_cons _ (by decide), skipWs_not_ws _ (by decide),
          pMemTailGo, if_neg (by decide)]
        exact ⟨[kv2], rfl⟩
      | cons kv3 items3 =>
        rw [List.map_cons, List.map_cons, joinSepC_cons2, List.append_assoc,
          List.append_assoc]
        obtain ⟨kv2, hkv2⟩ := pMembers_item (pMembers f) kv
          (([',', '\n'] : List Char) ++
            (joinSepC [',', '\n'] (itemChars kv3 :: items3.map itemChars) ++
              '\n' :: '\x7d' :: rest))
          (by
            intro c t h
            rw [List.cons_append, List.cons.injEq] at h
            rw [← h.1]
            exact ⟨by decide, by decide⟩)
        rw [hkv2, List.cons_append, skipWs_not_ws _ (by decide), pMemTailGo,
          if_pos rfl]
        have hlen : (kv3 :: items3).length ≤ f := by
          simp only [List.length_cons] at hfuel ⊢
          omega
        have hf1 : ∃ g, f = g + 1 := by
          cases f with
          | zero => simp at hlen
          | succ g => exact ⟨g, rfl⟩
        obtain ⟨g, rfl⟩ := hf1
        rw [List.singleton_append, pMembers_succ_ws _ _ (by decide)]
        obtain ⟨d, hd⟩ := ih (g + 1) rest (by simp) hlen
        rw [List.map_cons] at hd
        rw [hd]
        exact ⟨kv2 :: d, rfl⟩

/-- The file the archiver writes — the indent-2 JSON dump plus trailing
newline — parses back as JSON: the written contents are valid JSON. -/
lemma parseTop_dump (stats : JDict) :
    (parseTop (dumpDict stats ++ ['\n'])).isSome = true := by
  cases stats with
  | nil => decide
  | cons kv rest0 =>
    rw [dumpDict_cons, List.cons_append, List.cons_append, List.append_assoc]
    have h3 : (['\n', '\x7d'] : List Char) ++ ['\n'] =
      '\n' :: '\x7d' :: ['\n'] := rfl
    rw [h3]
    unfold parseTop
    rw [skipWs_not_ws _ (by decide), parseBrace, if_pos rfl]
    obtain ⟨t, hJ⟩ :=
      joinSepC_cons_ex [',', '\n'] (itemChars kv) (rest0.map itemChars)
    have hsk : ∃ rr, skipWs ('\n' ::
        (joinSepC [',', '\n'] ((kv :: rest0).map itemChars) ++
          '\n' :: '\x7d' :: ['\n'])) = '"' :: rr := by
      rw [List.map_cons, hJ, skipWs_ws_cons _ (by decide), List.append_assoc]
      have hshape : itemChars kv ++ (t ++ '\n' :: '\x7d' :: ['\n']) =
          ' ' :: ' ' :: '"' :: ((kv.1.toList.map escapeChar).flatten ++
            '"' :: ':' :: ' ' ::
              (dumpVal kv.2 ++ (t ++ '\n' :: '\x7d' :: ['\n']))) := by
        simp [itemChars, dumpStr, List.append_assoc]
      rw [hshape, skipWs_ws_cons _ (by decide), skipWs_ws_cons _ (by decide),
        skipWs_not_ws _ (by decide)]
      exact ⟨_, rfl⟩
    obtain ⟨rr, hrr⟩ := hsk
    rw [hrr, parseInner, if_neg (by decide)]
    rw [pMembers_succ_ws _ _ (by decide)]
    have hbound : (kv :: rest0).length ≤
        ('\n' :: (joinSepC [',', '\n'] ((kv :: rest0).map itemChars) ++
          '\n' :: '\x7d' :: ['\n'])).length + 1 := by
      have h1 : ((kv :: rest0).map itemChars).length ≤
          (joinSepC [',', '\n'] ((kv :: rest0).map itemChars)).length := by
        apply joinSepC_length_ge
        intro x hx
        rw [List.mem_map] at hx
        obtain ⟨kv4, _, rfl⟩ := hx
        exact itemChars_ne_nil kv4
      simp only [List.length_map, List.length_cons] at h1
      simp only [List.length_cons, List.length_append]
      omega
    obtain ⟨d, hd⟩ := pMembers_dump (kv :: rest0) _ ['\n'] (by simp) hbound
    rw [hd, parseAfterMembers, skipWs_not_ws _ (by decide), parseClose,
      if_pos rfl, if_pos (by rfl)]
    rfl

/-- C6: the archive path is `data/<YYYY>/<MM>/<YYYY-MM-DD>.json`
(zero-padded month, ISO filename) and depends only on the calendar date;
writing twice to that path (as two same-date runs do) leaves exactly one
file whose contents are the second write; and the written contents —
the JSON dump plus a trailing newline — end with a newline, parse as
JSON, and carry every non-ASCII character of the snapshot literally. -/
theorem claim_C6_archive_determinism_idempotence (dt dt2 : DateTime)
    (fs : FSys) (c1 c2 : String) (stats : JDict)
    (hdate : dt.date = dt2.date)
    (hfresh : ∀ e ∈ fs, ¬ e.1 = ensure_archive_path dt) :
    ensure_archive_path dt =
      ["data", String.mk (fmt4c dt.date.year), String.mk (fmt2c dt.date.month),
        String.mk (dateStrChars dt.date ++ ['.', 'j', 's', 'o', 'n'])] ∧
    ensure_archive_path dt = ensure_archive_path dt2 ∧
    (fsWrite (fsWrite fs (ensure_archive_path dt) c1)
        (ensure_archive_path dt2) c2) =
      fs ++ [(ensure_archive_path dt, c2)] ∧
    (fsWrite (fsWrite fs (ensure_archive_path dt) c1)
        (ensure_archive_path dt2) c2).countP
      (fun e => decide (e.1 = ensure_archive_path dt)) = 1 ∧
    fsLookup (fsWrite (fsWrite fs (ensure_archive_path dt) c1)
        (ensure_archive_path dt2) c2) (ensure_archive_path dt) = some c2 ∧
    (dumpDict stats ++ ['\n']).getLast? = some '\n' ∧
    (parseJson (String.mk (dumpDict stats ++ ['\n']))).isSome = true ∧
    (∀ c : Char, 128 ≤ c.toNat → ∀ kv ∈ stats,
      (c ∈ kv.1.toList ∨ ∃ s, kv.2 = JVal.jstr s ∧ c ∈ s.toList) →
      c ∈ dumpDict stats) := by
  have hpath : ensure_archive_path dt = ensure_archive_path dt2 := by
    unfold ensure_archive_path
    rw [hdate]
  have hw2 : fsWrite (fsWrite fs (ensure_archive_path dt) c1)
      (ensure_archive_path dt2) c2 = fs ++ [(ensure_archive_path dt, c2)] := by
    rw [← hpath, fsWrite_fresh hfresh, fsWrite_overwrite hfresh]
  refine ⟨rfl, hpath, hw2, ?_, ?_, dump_trailing_newline stats, ?_, ?_⟩
  · rw [hw2, List.countP_append]
    have h0 : fs.countP (fun e => decide (e.1 = ensure_archive_path dt)) = 0 := by
      rw [List.countP_eq_zero]
      intro e he
      simp only [decide_eq_true_eq]
      exact hfresh e he
    rw [h0]
    simp
  · rw [hw2, fsLookup_append_miss hfresh]
    rw [fsLookup, if_pos rfl]
  · show (parseTop (String.mk (dumpDict stats ++ ['\n'])).toList).isSome = true
    exact parseTop_dump stats
  · intro c hc kv hkv hmem
    exact dump_preserves_nonascii hc kv hkv hmem

/-- C6 witness: two same-date runs at different times of 2024-01-03,
over an archive holding one unrelated file, and a snapshot containing a
non-ASCII character. -/
theorem claim_C6_archive_determinism_idempotence_witness :
    (⟨⟨2024, 1, 3⟩, 6, 0⟩ : DateTime).date = (⟨⟨2024, 1, 3⟩, 23, 59⟩ : DateTime).date ∧
    (∀ e ∈ ([(["data", "2024", "01", "2024-01-02.json"], "old")] : FSys),
      ¬ e.1 = ensure_archive_path ⟨⟨2024, 1, 3⟩, 6, 0⟩) ∧
    (ensure_archive_path ⟨⟨2024, 1, 3⟩, 6, 0⟩ =
      ["data", String.mk (fmt4c (2024 : Nat)), String.mk (fmt2c (1 : Nat)),
        String.mk (dateStrChars ⟨2024, 1, 3⟩ ++ ['.', 'j', 's', 'o', 'n'])] ∧
    ensure_archive_path ⟨⟨2024, 1, 3⟩, 6, 0⟩ =
      ensure_archive_path ⟨⟨2024, 1, 3⟩, 23, 59⟩ ∧
    (fsWrite (fsWrite [(["data", "2024", "01", "2024-01-02.json"], "old")]
        (ensure_archive_path ⟨⟨2024, 1, 3⟩, 6, 0⟩) "first")
        (ensure_archive_path ⟨⟨2024, 1, 3⟩, 23, 59⟩) "second") =
      [(["data", "2024", "01", "2024-01-02.json"], "old")] ++
        [(ensure_archive_path ⟨⟨2024, 1, 3⟩, 6, 0⟩, "second")] ∧
    (fsWrite (fsWrite [(["data", "2024", "01", "2024-01-02.json"], "old")]
        (ensure_archive_path ⟨⟨2024, 1, 3⟩, 6, 0⟩) "first")
        (ensure_archive_path ⟨⟨2024, 1, 3⟩, 23, 59⟩) "second").countP
      (fun e => decide (e.1 = ensure_archive_path ⟨⟨2024, 1, 3⟩, 6, 0⟩)) = 1 ∧
    fsLookup (fsWrite (fsWrite [(["data", "2024", "01", "2024-01-02.json"], "old")]
        (ensure_archive_path ⟨⟨2024, 1, 3⟩, 6, 0⟩) "first")
        (ensure_archive_path ⟨⟨2024, 1, 3⟩, 23, 59⟩) "second")
      (ensure_archive_path ⟨⟨2024, 1, 3⟩, 6, 0⟩) = some "second" ∧
    (dumpDict [("total_users", JVal.jint 1000), ("note", JVal.jstr "héllo")] ++
      ['\n']).getLast? = some '\n' ∧
    (parseJson (String.mk
      (dumpDict [("total_users", JVal.jint 1000), ("note", JVal.jstr "héllo")] ++
        ['\n']))).isSome = true ∧
    (∀ c : Char, 128 ≤ c.toNat →
      ∀ kv ∈ ([("total_users", JVal.jint 1000), ("note", JVal.jstr "héllo")] : JDict),
      (c ∈ kv.1.toList ∨ ∃ s, kv.2 = JVal.jstr s ∧ c ∈ s.toList) →
      c ∈ dumpDict [("total_users", JVal.jint 1000), ("note", JVal.jstr "héllo")])) :=
  ⟨rfl, by decide,
    claim_C6_archive_determinism_idempotence ⟨⟨2024, 1, 3⟩, 6, 0⟩
      ⟨⟨2024, 1, 3⟩, 23, 59⟩ [(["data", "2024", "01", "2024-01-02.json"], "old")]
      "first" "second"
      [("total_users", JVal.jint 1000), ("note", JVal.jstr "héllo")]
      rfl (by decide)⟩
